import Mathlib

/-!
Quadtree collision index of the bouncing-ball demos.

A shallow embedding of the quadtree code of `弹球1.js` (classes `Quadtree`,
`DynamicQuadtree`, `Circle`; namespace `Ball1`), of `弹球self.js` (classes
`PlaneTree`, `Circle` and the function `updateAll`; namespace `BallSelf`) and
of `弹球2.js` (class `QuadTree`; namespace `Ball2`), with the properties of the
specification stated and proved over it.

Modelling conventions.

* JavaScript numbers are modelled as exact rationals (`ℚ`): `w / 2` is exact
  halving and comparisons are exact.  Rounding of IEEE doubles is not modelled.
* A body is a JavaScript object, compared by reference (`indexOf`, `!==`,
  `Set.add`).  A body carries an `id` that stands for its reference; the
  reference comparisons of the source compare `id`s here.
* A node is in one of two states: `nodes = null` (constructor `leaf`) or
  `nodes = [n0, n1, n2, n3]` (constructor `node`).
* Methods that mutate `this` return the new node.  The recursive `insert`
  has no bound on its depth in the source, so it takes a fuel argument (the
  depth of call stack it may use) and returns `none` when the fuel runs out.
* `Math.sqrt (d) <= s` is evaluated without a square root as
  `0 <= s` and `d <= s ^ 2` (`collidesWith_iff_sqrt`), and
  `Math.sqrt (d) < s` as `0 < s` and `d < s ^ 2` (`collidesWith_iff_sqrt_lt`).
* A JavaScript result that is `true`, `false` or `undefined` is an
  `Option Bool`, with `none` for `undefined`.
-/

namespace Ball1

/-- A body of `弹球1.js` (`class Circle`): the fields the index reads.  `id`
stands for the object reference. -/
structure Circle where
  id : Nat
  x : ℚ
  y : ℚ
  radius : ℚ
  deriving DecidableEq, Repr

/-- The scalar fields of a `Quadtree` object, as set by its constructor. -/
structure Fields where
  x : ℚ
  y : ℚ
  w : ℚ
  h : ℚ
  depth : Nat
  maxDepth : Nat
  maxObjects : Nat
  deriving DecidableEq, Repr

/-- A `Quadtree` object: `leaf` is the state `nodes = null`, `node` the state
`nodes = [n0, n1, n2, n3]`; `objects` is the resident list. -/
inductive Quadtree where
  | leaf (s : Fields) (objects : List Circle)
  | node (s : Fields) (objects : List Circle) (n0 n1 n2 n3 : Quadtree)
  deriving DecidableEq, Repr

/-- The array `this.nodes` when it is not null. -/
abbrev Nodes := Quadtree × Quadtree × Quadtree × Quadtree

/-- The expression `nodes[index]`; every call site has `index` in `0..3`. -/
def Nodes.get (ns : Nodes) (index : Int) : Quadtree :=
  if index = 0 then ns.1
  else if index = 1 then ns.2.1
  else if index = 2 then ns.2.2.1
  else ns.2.2.2

/-- The array `nodes` after the object `nodes[index]` was mutated into `c`. -/
def Nodes.set (ns : Nodes) (index : Int) (c : Quadtree) : Nodes :=
  if index = 0 then (c, ns.2.1, ns.2.2.1, ns.2.2.2)
  else if index = 1 then (ns.1, c, ns.2.2.1, ns.2.2.2)
  else if index = 2 then (ns.1, ns.2.1, c, ns.2.2.2)
  else (ns.1, ns.2.1, ns.2.2.1, c)

namespace Quadtree

/-- The scalar fields of a node. -/
def fields : Quadtree → Fields
  | leaf s _ => s
  | node s _ _ _ _ _ => s

/-- The field `this.objects`. -/
def objects : Quadtree → List Circle
  | leaf _ os => os
  | node _ os _ _ _ _ => os

/-- The field `this.nodes`. -/
def nodes : Quadtree → Option Nodes
  | leaf _ _ => none
  | node _ _ n0 n1 n2 n3 => some (n0, n1, n2, n3)

end Quadtree

/-- The call `new DynamicQuadtree(x, y, w, h)`: the constructor passes only
the region to `super`, so `depth`, `maxDepth` and `maxObjects` take the
defaults `0`, `4`, `4` of `Quadtree.constructor`. -/
def DynamicQuadtree.new (x y w h : ℚ) : Quadtree :=
  .leaf ⟨x, y, w, h, 0, 4, 4⟩ []

/-- The array built by `Quadtree.split`. -/
def split (s : Fields) : Nodes :=
  let subWidth := s.w / 2
  let subHeight := s.h / 2
  let x := s.x
  let y := s.y
  (DynamicQuadtree.new (x + subWidth) y subWidth subHeight,
   DynamicQuadtree.new x y subWidth subHeight,
   DynamicQuadtree.new x (y + subHeight) subWidth subHeight,
   DynamicQuadtree.new (x + subWidth) (y + subHeight) subWidth subHeight)

/-- The method `Quadtree.getIndex`. -/
def getIndex (s : Fields) (obj : Circle) : Int :=
  let verticalMidpoint := s.x + s.w / 2
  let horizontalMidpoint := s.y + s.h / 2
  let topQuadrant : Bool := obj.y + obj.radius < horizontalMidpoint
  let bottomQuadrant : Bool := obj.y - obj.radius > horizontalMidpoint
  if obj.x + obj.radius < verticalMidpoint then
    if topQuadrant then 1
    else if bottomQuadrant then 2
    else -1
  else if obj.x - obj.radius > verticalMidpoint then
    if topQuadrant then 0
    else if bottomQuadrant then 3
    else -1
  else -1

/-- The `while` loop of `Quadtree.insert`: `kept` is `objects[0..i)`, the
list argument is `objects[i..)`, `ns` is `this.nodes`, and `ins` is the
`insert` of the child nodes. -/
def pushDown (ins : Quadtree → Circle → Option Quadtree) (s : Fields) :
    List Circle → List Circle → Nodes → Option (List Circle × Nodes)
  | [], kept, ns => some (kept, ns)
  | o :: rest, kept, ns =>
    let index := getIndex s o
    if index ≠ -1 then
      match ins (ns.get index) o with
      | some c => pushDown ins s rest kept (ns.set index c)
      | none => none
    else pushDown ins s rest (kept ++ [o]) ns

/-- The method `Quadtree.insert`, with `fuel` bounding the depth of the
recursion. -/
def insert : Nat → Quadtree → Circle → Option Quadtree
  | 0, _, _ => none
  | fuel + 1, .node s objects n0 n1 n2 n3, obj =>
    let index := getIndex s obj
    if index ≠ -1 then
      match insert fuel (Nodes.get (n0, n1, n2, n3) index) obj with
      | some c =>
        let ns := Nodes.set (n0, n1, n2, n3) index c
        some (.node s objects ns.1 ns.2.1 ns.2.2.1 ns.2.2.2)
      | none => none
    else
      let objects := objects ++ [obj]
      if objects.length > s.maxObjects ∧ s.depth < s.maxDepth then
        match pushDown (insert fuel) s objects [] (n0, n1, n2, n3) with
        | some (kept, ns) => some (.node s kept ns.1 ns.2.1 ns.2.2.1 ns.2.2.2)
        | none => none
      else some (.node s objects n0 n1 n2 n3)
  | fuel + 1, .leaf s objects, obj =>
    let objects := objects ++ [obj]
    if objects.length > s.maxObjects ∧ s.depth < s.maxDepth then
      match pushDown (insert fuel) s objects [] (split s) with
      | some (kept, ns) => some (.node s kept ns.1 ns.2.1 ns.2.2.1 ns.2.2.2)
      | none => none
    else some (.leaf s objects)

/-- Inserting the bodies of a list one after another, as the set-up loop
`qt.insert(circle)` does. -/
def insertAll (fuel : Nat) : Quadtree → List Circle → Option Quadtree
  | t, [] => some t
  | t, b :: bs =>
    match insert fuel t b with
    | some t1 => insertAll fuel t1 bs
    | none => none

/-- The method `Circle.collidesWith`: `Math.sqrt(dx ** 2 + dy ** 2) <=
this.radius + other.radius`. -/
def collidesWith (self other : Circle) : Bool :=
  let dx := self.x - other.x
  let dy := self.y - other.y
  decide (0 ≤ self.radius + other.radius ∧
    dx ^ 2 + dy ^ 2 ≤ (self.radius + other.radius) ^ 2)

/-- The call `found.add(other)` on a `Set` of bodies, kept in insertion
order. -/
def setAdd (found : List Circle) (other : Circle) : List Circle :=
  if found.any (fun c => c.id == other.id) then found else found ++ [other]

/-- The `for` loop of `DynamicQuadtree.query` over `this.objects`. -/
def queryScan (obj : Circle) : List Circle → List Circle → List Circle
  | [], found => found
  | other :: rest, found =>
    if other.id ≠ obj.id ∧ collidesWith obj other = true then
      queryScan obj rest (setAdd found other)
    else queryScan obj rest found

/-- The method `DynamicQuadtree.query`. -/
def query : Quadtree → Circle → List Circle → List Circle
  | .leaf _ objects, obj, found => queryScan obj objects found
  | .node s objects n0 n1 n2 n3, obj, found =>
    let index := getIndex s obj
    let found :=
      if index = 0 then query n0 obj found
      else if index = 1 then query n1 obj found
      else if index = 2 then query n2 obj found
      else if index = 3 then query n3 obj found
      else found
    queryScan obj objects found

/-- The method `Quadtree.contains`. -/
def contains (s : Fields) (obj : Circle) : Bool :=
  obj.x ≥ s.x && obj.y ≥ s.y && obj.x + obj.radius ≤ s.x + s.w &&
    obj.y + obj.radius ≤ s.y + s.h

/-- The method `Quadtree.remove`: `indexOf` finds the first resident with
the reference of `obj`, `splice(index, 1)` deletes it. -/
def remove : Quadtree → Circle → Quadtree
  | .leaf s objects, obj =>
    match objects.findIdx? (fun o => o.id == obj.id) with
    | some index => .leaf s (objects.eraseIdx index)
    | none => .leaf s objects
  | .node s objects n0 n1 n2 n3, obj =>
    match objects.findIdx? (fun o => o.id == obj.id) with
    | some index => .node s (objects.eraseIdx index) n0 n1 n2 n3
    | none =>
      let index := getIndex s obj
      if index = 0 then .node s objects (remove n0 obj) n1 n2 n3
      else if index = 1 then .node s objects n0 (remove n1 obj) n2 n3
      else if index = 2 then .node s objects n0 n1 (remove n2 obj) n3
      else if index = 3 then .node s objects n0 n1 n2 (remove n3 obj)
      else .node s objects n0 n1 n2 n3

/-- The method `Quadtree.clear`: the children are cleared, then dropped. -/
def clear : Quadtree → Quadtree
  | .leaf s _ => .leaf s []
  | .node s _ n0 n1 n2 n3 =>
    match clear n0, clear n1, clear n2, clear n3 with
    | _, _, _, _ => .leaf s []

/-- The `for (const obj of this.objects)` loop of
`DynamicQuadtree.updateAll`: the array iterator is at position `i` of the
live array `this.objects`, which `remove` and `insert` mutate. -/
def updateLoop : Nat → Quadtree → Nat → Option Quadtree
  | 0, _, _ => none
  | fuel + 1, t, i =>
    match t.objects.get? i with
    | some obj =>
      match insert fuel (remove t obj) obj with
      | some t1 => updateLoop fuel t1 (i + 1)
      | none => none
    | none => some t

/-- The method `DynamicQuadtree.updateAll`. -/
def updateAll : Nat → Quadtree → Option Quadtree
  | 0, _ => none
  | fuel + 1, t =>
    match updateLoop fuel t 0 with
    | some (.leaf s objects) => some (.leaf s objects)
    | some (.node s objects n0 n1 n2 n3) =>
      match updateAll fuel n0, updateAll fuel n1, updateAll fuel n2,
        updateAll fuel n3 with
      | some m0, some m1, some m2, some m3 => some (.node s objects m0 m1 m2 m3)
      | _, _, _, _ => none
    | none => none

/-- Every resident of the subtree, node first, then the children in order. -/
def allObjects : Quadtree → List Circle
  | .leaf _ objects => objects
  | .node _ objects n0 n1 n2 n3 =>
    objects ++ (allObjects n0 ++ (allObjects n1 ++ (allObjects n2 ++ allObjects n3)))

/-- The root `new DynamicQuadtree(0, 0, 100, 100)`. -/
def root100 : Quadtree := DynamicQuadtree.new 0 0 100 100

/-- Five bodies of radius 1, all at (10, 10). -/
def fiveAt10 : List Circle :=
  [⟨1, 10, 10, 1⟩, ⟨2, 10, 10, 1⟩, ⟨3, 10, 10, 1⟩, ⟨4, 10, 10, 1⟩, ⟨5, 10, 10, 1⟩]

/-- Five bodies of radius 3: the first sits on the centre of the plane, the
second overlaps it from inside the upper left quadrant. -/
def seamBodies : List Circle :=
  [⟨1, 50, 50, 3⟩, ⟨2, 46, 46, 3⟩, ⟨3, 20, 20, 3⟩, ⟨4, 80, 20, 3⟩, ⟨5, 80, 80, 3⟩]


/-- Two bodies of radius 3 at (50, 49) and (50, 51). -/
def straddlers : List Circle := [⟨1, 50, 49, 3⟩, ⟨2, 50, 51, 3⟩]

/-- The two straddlers followed by three bodies that make the root split. -/
def straddlersAndThree : List Circle :=
  [⟨1, 50, 49, 3⟩, ⟨2, 50, 51, 3⟩, ⟨3, 20, 20, 3⟩, ⟨4, 80, 20, 3⟩, ⟨5, 80, 80, 3⟩]


/-- The tree that inserting `seamBodies` into `root100` gives. -/
def seamTree : Quadtree :=
  .node ⟨0, 0, 100, 100, 0, 4, 4⟩ [⟨1, 50, 50, 3⟩]
    (.leaf ⟨50, 0, 50, 50, 0, 4, 4⟩ [⟨4, 80, 20, 3⟩])
    (.leaf ⟨0, 0, 50, 50, 0, 4, 4⟩ [⟨2, 46, 46, 3⟩, ⟨3, 20, 20, 3⟩])
    (.leaf ⟨0, 50, 50, 50, 0, 4, 4⟩ [])
    (.leaf ⟨50, 50, 50, 50, 0, 4, 4⟩ [⟨5, 80, 80, 3⟩])


/-- Every resident list of the subtree rewritten by `f`, the nodes and
their fields kept: used to state what `remove` leaves in place. -/
def mapObjects (f : List Circle → List Circle) : Quadtree → Quadtree
  | .leaf s objects => .leaf s (f objects)
  | .node s objects n0 n1 n2 n3 =>
    .node s (f objects) (mapObjects f n0) (mapObjects f n1) (mapObjects f n2)
      (mapObjects f n3)

/-- Number of levels below this node at which a node exists. -/
def height : Quadtree → Nat
  | .leaf _ _ => 0
  | .node _ _ n0 n1 n2 n3 => 1 + max (max (height n0) (height n1)) (max (height n2) (height n3))

/-- Number of levels below the root of the node whose resident list holds
`b`, if any. -/
def level : Quadtree → Circle → Option Nat
  | .leaf _ objects, b => if b ∈ objects then some 0 else none
  | .node _ objects n0 n1 n2 n3, b =>
    if b ∈ objects then some 0
    else match level n0 b with
      | some k => some (k + 1)
      | none => match level n1 b with
        | some k => some (k + 1)
        | none => match level n2 b with
          | some k => some (k + 1)
          | none => match level n3 b with
            | some k => some (k + 1)
            | none => none

/-- The resident list of the first node on the classification path of `b`
(the node, then child `getIndex b`, and so on) that has no children or
classifies `b` as ambiguous. -/
def homeObjects : Quadtree → Circle → List Circle
  | .leaf _ objects, _ => objects
  | .node s objects n0 n1 n2 n3, b =>
    let index := getIndex s b
    if index = 0 then homeObjects n0 b
    else if index = 1 then homeObjects n1 b
    else if index = 2 then homeObjects n2 b
    else if index = 3 then homeObjects n3 b
    else objects

/-- The circle of `b` lies within the rectangle of `s`. -/
def Inside (s : Fields) (b : Circle) : Prop :=
  s.x ≤ b.x - b.radius ∧ b.x + b.radius ≤ s.x + s.w ∧
    s.y ≤ b.y - b.radius ∧ b.y + b.radius ≤ s.y + s.h

instance (s : Fields) (b : Circle) : Decidable (Inside s b) := by
  unfold Inside; infer_instance

/-- A property of the four children, each with its index. -/
def Nodes.All (P : Int → Quadtree → Prop) (ns : Nodes) : Prop :=
  P 0 ns.1 ∧ P 1 ns.2.1 ∧ P 2 ns.2.2.1 ∧ P 3 ns.2.2.2

/-- The residents of the four subtrees. -/
def Nodes.allObjects (ns : Nodes) : List Circle :=
  Ball1.allObjects ns.1 ++ (Ball1.allObjects ns.2.1 ++
    (Ball1.allObjects ns.2.2.1 ++ Ball1.allObjects ns.2.2.2))

/-- The fields of the four children. -/
def Nodes.fields (ns : Nodes) : Fields × Fields × Fields × Fields :=
  (ns.1.fields, ns.2.1.fields, ns.2.2.1.fields, ns.2.2.2.fields)

/-- Every resident is where classification puts it: the residents of a node
with children are ambiguous there, and the residents of the subtree of
child `i` are classified `i`. -/
def Placed : Quadtree → Prop
  | .leaf _ _ => True
  | .node s objects n0 n1 n2 n3 =>
    (∀ b ∈ objects, getIndex s b = -1) ∧
    ((∀ b ∈ allObjects n0, getIndex s b = 0) ∧ Placed n0) ∧
    ((∀ b ∈ allObjects n1, getIndex s b = 1) ∧ Placed n1) ∧
    ((∀ b ∈ allObjects n2, getIndex s b = 2) ∧ Placed n2) ∧
    ((∀ b ∈ allObjects n3, getIndex s b = 3) ∧ Placed n3)

/-- Every resident lies within the region of its node and has radius at
least `ρ`, and the children have the fields `split` gives them. -/
def Good (ρ : ℚ) : Quadtree → Prop
  | .leaf s objects => ∀ b ∈ objects, Inside s b ∧ ρ ≤ b.radius
  | .node s objects n0 n1 n2 n3 =>
    (∀ b ∈ objects, Inside s b ∧ ρ ≤ b.radius) ∧
    (n0.fields = (split s).1.fields ∧ Good ρ n0) ∧
    (n1.fields = (split s).2.1.fields ∧ Good ρ n1) ∧
    (n2.fields = (split s).2.2.1.fields ∧ Good ρ n2) ∧
    (n3.fields = (split s).2.2.2.fields ∧ Good ρ n3)

end Ball1

namespace Ball1

/-- Every resident satisfies `contains` of the node that holds it. -/
def residentsContained : Quadtree → Bool
  | .leaf s objects => objects.all (contains s)
  | .node s objects n0 n1 n2 n3 =>
    objects.all (contains s) && residentsContained n0 && residentsContained n1 &&
      residentsContained n2 && residentsContained n3

/-- Five bodies of radius 1: four in the upper left quadrant of the plane
100 x 100 and one in the lower right. -/
def driftBodies : List Circle :=
  [⟨1, 45, 45, 1⟩, ⟨2, 20, 20, 1⟩, ⟨3, 30, 30, 1⟩, ⟨4, 40, 40, 1⟩, ⟨5, 60, 60, 1⟩]

/-- The tree that inserting `driftBodies` into `root100` gives. -/
def driftTree : Quadtree :=
  .node ⟨0, 0, 100, 100, 0, 4, 4⟩ []
    (.leaf ⟨50, 0, 50, 50, 0, 4, 4⟩ [])
    (.leaf ⟨0, 0, 50, 50, 0, 4, 4⟩
      [⟨1, 45, 45, 1⟩, ⟨2, 20, 20, 1⟩, ⟨3, 30, 30, 1⟩, ⟨4, 40, 40, 1⟩])
    (.leaf ⟨0, 50, 50, 50, 0, 4, 4⟩ [])
    (.leaf ⟨50, 50, 50, 50, 0, 4, 4⟩ [⟨5, 60, 60, 1⟩])

/-- A change of positions: body 1 moves from (45, 45) to (52, 45), across
the vertical midline of the plane; the others stay. -/
def driftMove (c : Circle) : Circle :=
  if c.id = 1 then { c with x := 52 } else c

end Ball1

namespace BallSelf

/-- A body of `弹球self.js` (`class Circle`); `id` stands for the object
reference and `color` for the colour string. -/
structure Circle where
  id : Nat
  x : ℚ
  y : ℚ
  radius : ℚ
  vx : ℚ
  vy : ℚ
  color : Nat
  deriving DecidableEq, Repr

/-- The object `plane` of a `PlaneTree`. -/
structure Plane where
  x : ℚ
  y : ℚ
  width : ℚ
  height : ℚ
  deriving DecidableEq, Repr

/-- A `PlaneTree` object: `leaf` is the state `nodes = null`, `node` the
state `nodes = [n0, n1, n2, n3]`. -/
inductive PlaneTree where
  | leaf (plane : Plane) (maxObjects : Nat) (objects : List Circle)
  | node (plane : Plane) (maxObjects : Nat) (objects : List Circle)
      (n0 n1 n2 n3 : PlaneTree)
  deriving DecidableEq, Repr

/-- The array `this.nodes` when it is not null. -/
abbrev Nodes := PlaneTree × PlaneTree × PlaneTree × PlaneTree

/-- The expression `nodes[index]`; every call site has `index` in `0..3`. -/
def Nodes.get (ns : Nodes) (index : Int) : PlaneTree :=
  if index = 0 then ns.1
  else if index = 1 then ns.2.1
  else if index = 2 then ns.2.2.1
  else ns.2.2.2

/-- The array `nodes` after the object `nodes[index]` was mutated into `c`. -/
def Nodes.set (ns : Nodes) (index : Int) (c : PlaneTree) : Nodes :=
  if index = 0 then (c, ns.2.1, ns.2.2.1, ns.2.2.2)
  else if index = 1 then (ns.1, c, ns.2.2.1, ns.2.2.2)
  else if index = 2 then (ns.1, ns.2.1, c, ns.2.2.2)
  else (ns.1, ns.2.1, ns.2.2.1, c)

namespace PlaneTree

/-- The field `this.plane`. -/
def plane : PlaneTree → Plane
  | leaf p _ _ => p
  | node p _ _ _ _ _ _ => p

/-- The field `this.maxObjects`. -/
def maxObjects : PlaneTree → Nat
  | leaf _ m _ => m
  | node _ m _ _ _ _ _ => m

/-- The field `this.objects`. -/
def objects : PlaneTree → List Circle
  | leaf _ _ os => os
  | node _ _ os _ _ _ _ => os

/-- The field `this.nodes`. -/
def nodes : PlaneTree → Option Nodes
  | leaf _ _ _ => none
  | node _ _ _ n0 n1 n2 n3 => some (n0, n1, n2, n3)

/-- The call `new PlaneTree(plane)`: `maxObjects` takes its default 4. -/
def new (plane : Plane) : PlaneTree := .leaf plane 4 []

end PlaneTree

/-- The array built by `PlaneTree.spilt`. -/
def spilt (plane : Plane) : Nodes :=
  let subWidth := plane.width / 2
  let subHeight := plane.height / 2
  let x := plane.x
  let y := plane.y
  (PlaneTree.new ⟨x, y, subWidth, subHeight⟩,
   PlaneTree.new ⟨x + subWidth, y, subWidth, subHeight⟩,
   PlaneTree.new ⟨x + subWidth, y + subHeight, subWidth, subHeight⟩,
   PlaneTree.new ⟨x, y + subHeight, subWidth, subHeight⟩)

/-- The method `PlaneTree.getIndex`. -/
def getIndex (plane : Plane) (obj : Circle) : Int :=
  let x_mid := plane.x + plane.width / 2
  let y_mid := plane.y + plane.height / 2
  let top : Bool := obj.y + obj.radius ≤ y_mid
  let bottom : Bool := obj.y - obj.radius ≥ y_mid
  let left : Bool := obj.x + obj.radius ≤ x_mid
  let right : Bool := obj.x - obj.radius ≥ x_mid
  if top && left then 0
  else if top && right then 1
  else if bottom && right then 2
  else if bottom && left then 3
  else -1

/-- The `while` loop of `PlaneTree.insert`: `kept` is `objects[0..i)`, the
list argument is `objects[i..)`, `ns` is `this.nodes`, and `ins` is the
`insert` of the child nodes. -/
def pushDown (ins : PlaneTree → Circle → Option PlaneTree) (plane : Plane) :
    List Circle → List Circle → Nodes → Option (List Circle × Nodes)
  | [], kept, ns => some (kept, ns)
  | o :: rest, kept, ns =>
    let index := getIndex plane o
    if index ≠ -1 then
      match ins (ns.get index) o with
      | some c => pushDown ins plane rest kept (ns.set index c)
      | none => none
    else pushDown ins plane rest (kept ++ [o]) ns

/-- The method `PlaneTree.insert`, with `fuel` bounding the depth of the
recursion. -/
def insert : Nat → PlaneTree → Circle → Option PlaneTree
  | 0, _, _ => none
  | fuel + 1, .node plane maxObjects objects n0 n1 n2 n3, obj =>
    let index := getIndex plane obj
    if index ≠ -1 then
      match insert fuel (Nodes.get (n0, n1, n2, n3) index) obj with
      | some c =>
        let ns := Nodes.set (n0, n1, n2, n3) index c
        some (.node plane maxObjects objects ns.1 ns.2.1 ns.2.2.1 ns.2.2.2)
      | none => none
    else
      let objects := objects ++ [obj]
      if objects.length > maxObjects then
        match pushDown (insert fuel) plane objects [] (n0, n1, n2, n3) with
        | some (kept, ns) =>
          some (.node plane maxObjects kept ns.1 ns.2.1 ns.2.2.1 ns.2.2.2)
        | none => none
      else some (.node plane maxObjects objects n0 n1 n2 n3)
  | fuel + 1, .leaf plane maxObjects objects, obj =>
    let objects := objects ++ [obj]
    if objects.length > maxObjects then
      match pushDown (insert fuel) plane objects [] (spilt plane) with
      | some (kept, ns) =>
        some (.node plane maxObjects kept ns.1 ns.2.1 ns.2.2.1 ns.2.2.2)
      | none => none
    else some (.leaf plane maxObjects objects)

/-- Inserting the bodies of a list one after another, as the loop
`qt.insert(circle)` of `updateAll` does. -/
def insertAll (fuel : Nat) : PlaneTree → List Circle → Option PlaneTree
  | t, [] => some t
  | t, b :: bs =>
    match insert fuel t b with
    | some t1 => insertAll fuel t1 bs
    | none => none

/-- The method `PlaneTree.clear`: the children are cleared, then dropped. -/
def clear : PlaneTree → PlaneTree
  | .leaf plane maxObjects _ => .leaf plane maxObjects []
  | .node plane maxObjects _ n0 n1 n2 n3 =>
    match clear n0, clear n1, clear n2, clear n3 with
    | _, _, _, _ => .leaf plane maxObjects []

/-- A plane tree with children and residents on two levels. -/
def sampleTree : PlaneTree :=
  .node ⟨0, 0, 100, 100⟩ 4 [⟨1, 50, 50, 3, 0, 0, 7⟩]
    (.leaf ⟨0, 0, 50, 50⟩ 4 [⟨2, 20, 20, 3, 1, 0, 7⟩])
    (.leaf ⟨50, 0, 50, 50⟩ 4 [])
    (.leaf ⟨50, 50, 50, 50⟩ 4 [⟨3, 80, 80, 3, 0, 1, 8⟩])
    (.leaf ⟨0, 50, 50, 50⟩ 4 [])

end BallSelf


namespace Ball1

/-- The quadrant indices `getIndex` returns for `b` on the way down from
this node, the way `query` and `insert` descend: the list ends at a node
without children or at a node that classifies `b` as ambiguous. -/
def descentPath : Quadtree → Circle → List Int
  | .leaf _ _, _ => []
  | .node s _ n0 n1 n2 n3, b =>
    let index := getIndex s b
    if index = 0 then 0 :: descentPath n0 b
    else if index = 1 then 1 :: descentPath n1 b
    else if index = 2 then 2 :: descentPath n2 b
    else if index = 3 then 3 :: descentPath n3 b
    else []

end Ball1

namespace BallSelf

/-- The method `Circle.collidesWith` of `弹球self.js`:
`Math.sqrt(dx ** 2 + dy ** 2) < this.radius + other.radius`. -/
def collidesWith (self other : Circle) : Bool :=
  let dx := self.x - other.x
  let dy := self.y - other.y
  decide (0 < self.radius + other.radius ∧
    dx ^ 2 + dy ^ 2 < (self.radius + other.radius) ^ 2)

/-- The method `Circle.move`; `width` and `height` are the globals of the
script. -/
def move (width height : ℚ) (c : Circle) : Circle :=
  let vx := if c.x + c.radius ≥ width ∨ c.x - c.radius ≤ 0 then -c.vx else c.vx
  let vy := if c.y + c.radius ≥ height ∨ c.y - c.radius ≤ 0 then -c.vy else c.vy
  { c with vx := vx, vy := vy, x := c.x + vx, y := c.y + vy }

/-- The call `found.add(other)` on a `Set` of bodies, kept in insertion
order. -/
def setAdd (found : List Circle) (other : Circle) : List Circle :=
  if found.any (fun c => c.id == other.id) then found else found ++ [other]

/-- The `for` loop of `PlaneTree.query` over `this.objects`. -/
def queryScan (obj : Circle) : List Circle → List Circle → List Circle
  | [], found => found
  | other :: rest, found =>
    if other.id ≠ obj.id ∧ collidesWith obj other = true then
      queryScan obj rest (setAdd found other)
    else queryScan obj rest found

/-- The method `PlaneTree.query`. -/
def query : PlaneTree → Circle → List Circle → List Circle
  | .leaf _ _ objects, obj, found => queryScan obj objects found
  | .node plane _ objects n0 n1 n2 n3, obj, found =>
    let index := getIndex plane obj
    let found :=
      if index = 0 then query n0 obj found
      else if index = 1 then query n1 obj found
      else if index = 2 then query n2 obj found
      else if index = 3 then query n3 obj found
      else found
    queryScan obj objects found

/-- The call `circles.indexOf(obj)`: the first position holding the
reference of `obj`, or -1. -/
def indexOf (circles : List Circle) (obj : Circle) : Int :=
  match circles.findIdx? (fun c => c.id == obj.id) with
  | some i => (i : Int)
  | none => -1

/-- The call `circles.splice(start, 1)`: a negative `start` counts from the
end of the array (and is clamped at 0), a `start` beyond the end deletes
nothing. -/
def splice1 (circles : List Circle) (start : Int) : List Circle :=
  let len : Int := circles.length
  let actualStart : Int := if start < 0 then max (len + start) 0 else min start len
  circles.eraseIdx actualStart.toNat

/-- The inner loop `for (const other of found)` of `updateAll`. -/
def removeFound : List Circle → List Circle → List Circle
  | [], circles => circles
  | other :: rest, circles => removeFound rest (splice1 circles (indexOf circles other))

/-- The loop `for (const circle of circles)` of `updateAll` that queries and
removes: the array iterator is at position `i` of the live array `circles`;
`found` is empty at the start of every step (`found.clear()`). -/
def despawnLoop (qt : PlaneTree) : Nat → List Circle → Nat → Option (List Circle)
  | 0, _, _ => none
  | fuel + 1, circles, i =>
    match circles.get? i with
    | none => some circles
    | some circ =>
      let found := query qt circ []
      let circles1 := removeFound found circles
      let flag := !found.isEmpty
      let circles2 :=
        if flag then splice1 circles1 (indexOf circles1 circ) else circles1
      despawnLoop qt fuel circles2 (i + 1)

/-- Every resident list of the subtree rewritten by `f`, the nodes kept. -/
def mapObjects (f : List Circle → List Circle) : PlaneTree → PlaneTree
  | .leaf plane maxObjects objects => .leaf plane maxObjects (f objects)
  | .node plane maxObjects objects n0 n1 n2 n3 =>
    .node plane maxObjects (f objects) (mapObjects f n0) (mapObjects f n1)
      (mapObjects f n2) (mapObjects f n3)

/-- The function `updateAll` on the globals `circles` and `qt`.  The tree
holds references to the bodies, so the bodies of the tree that are in
`circles` move with them.  `fuel` bounds the steps of the loop and the depth
of `insert`. -/
def updateAll (width height : ℚ) (fuel : Nat) (circles : List Circle) (qt : PlaneTree) :
    Option (List Circle × PlaneTree) :=
  let moved := circles.map (move width height)
  let qt1 := mapObjects (List.map fun c =>
    if circles.any (fun d => d.id == c.id) then move width height c else c) qt
  match despawnLoop qt1 fuel moved 0 with
  | none => none
  | some circles1 =>
    match insertAll fuel (clear qt1) circles1 with
    | some qt2 => some (circles1, qt2)
    | none => none

/-- Every resident of the subtree, node first, then the children in order. -/
def allObjects : PlaneTree → List Circle
  | .leaf _ _ objects => objects
  | .node _ _ objects n0 n1 n2 n3 =>
    objects ++ (allObjects n0 ++ (allObjects n1 ++ (allObjects n2 ++ allObjects n3)))

/-- Number of levels below the root of the node whose resident list holds
`b`, if any. -/
def level : PlaneTree → Circle → Option Nat
  | .leaf _ _ objects, b => if b ∈ objects then some 0 else none
  | .node _ _ objects n0 n1 n2 n3, b =>
    if b ∈ objects then some 0
    else match level n0 b with
      | some k => some (k + 1)
      | none => match level n1 b with
        | some k => some (k + 1)
        | none => match level n2 b with
          | some k => some (k + 1)
          | none => match level n3 b with
            | some k => some (k + 1)
            | none => none

/-- The circle of `b` lies within the rectangle `p`. -/
def Inside (p : Plane) (b : Circle) : Prop :=
  p.x ≤ b.x - b.radius ∧ b.x + b.radius ≤ p.x + p.width ∧
    p.y ≤ b.y - b.radius ∧ b.y + b.radius ≤ p.y + p.height

instance (p : Plane) (b : Circle) : Decidable (Inside p b) := by
  unfold Inside; infer_instance

/-- A property of the four children, each with its index. -/
def Nodes.All (P : Int → PlaneTree → Prop) (ns : Nodes) : Prop :=
  P 0 ns.1 ∧ P 1 ns.2.1 ∧ P 2 ns.2.2.1 ∧ P 3 ns.2.2.2

/-- The residents of the four subtrees. -/
def Nodes.allObjects (ns : Nodes) : List Circle :=
  BallSelf.allObjects ns.1 ++ (BallSelf.allObjects ns.2.1 ++
    (BallSelf.allObjects ns.2.2.1 ++ BallSelf.allObjects ns.2.2.2))

/-- Every resident lies within the plane of its node, and the children have
the planes `spilt` gives them. -/
def Good : PlaneTree → Prop
  | .leaf plane _ objects => ∀ b ∈ objects, Inside plane b
  | .node plane _ objects n0 n1 n2 n3 =>
    (∀ b ∈ objects, Inside plane b) ∧
    (n0.plane = (spilt plane).1.plane ∧ Good n0) ∧
    (n1.plane = (spilt plane).2.1.plane ∧ Good n1) ∧
    (n2.plane = (spilt plane).2.2.1.plane ∧ Good n2) ∧
    (n3.plane = (spilt plane).2.2.2.plane ∧ Good n3)

end BallSelf


namespace Ball1

/-- The tree that inserting `fiveAt10` into `root100` gives: the five bodies
are resident four levels below the root, in the node reached through the
quadrants 1, 1, 1, 3, and that node has four empty children. -/
def fiveTree : Quadtree :=
  .node ⟨0, 0, 100, 100, 0, 4, 4⟩ []
    (DynamicQuadtree.new 50 0 50 50)
    (.node ⟨0, 0, 50, 50, 0, 4, 4⟩ []
      (DynamicQuadtree.new 25 0 25 25)
      (.node ⟨0, 0, 25, 25, 0, 4, 4⟩ []
        (DynamicQuadtree.new (25 / 2) 0 (25 / 2) (25 / 2))
        (.node ⟨0, 0, 25 / 2, 25 / 2, 0, 4, 4⟩ []
          (DynamicQuadtree.new (25 / 4) 0 (25 / 4) (25 / 4))
          (DynamicQuadtree.new 0 0 (25 / 4) (25 / 4))
          (DynamicQuadtree.new 0 (25 / 4) (25 / 4) (25 / 4))
          (.node ⟨25 / 4, 25 / 4, 25 / 4, 25 / 4, 0, 4, 4⟩ fiveAt10
            (DynamicQuadtree.new (75 / 8) (25 / 4) (25 / 8) (25 / 8))
            (DynamicQuadtree.new (25 / 4) (25 / 4) (25 / 8) (25 / 8))
            (DynamicQuadtree.new (25 / 4) (75 / 8) (25 / 8) (25 / 8))
            (DynamicQuadtree.new (75 / 8) (75 / 8) (25 / 8) (25 / 8))))
        (DynamicQuadtree.new 0 (25 / 2) (25 / 2) (25 / 2))
        (DynamicQuadtree.new (25 / 2) (25 / 2) (25 / 2) (25 / 2)))
      (DynamicQuadtree.new 0 25 25 25)
      (DynamicQuadtree.new 25 25 25 25))
    (DynamicQuadtree.new 0 50 50 50)
    (DynamicQuadtree.new 50 50 50 50)

end Ball1


namespace BallSelf

/-- A body store of four bodies of radius 1 at rest: the first overlaps the
second, the second overlaps the fourth, the first and the fourth do not
overlap, and the third, at (50, 50), is far from all of them. -/
def chainBodies : List Circle :=
  [⟨1, 10, 10, 1, 0, 0, 1⟩, ⟨2, 23 / 2, 10, 1, 0, 0, 2⟩, ⟨3, 50, 50, 1, 0, 0, 3⟩,
    ⟨4, 13, 10, 1, 0, 0, 4⟩]

/-- The tree that inserting `chainBodies` into an empty tree of the plane
100 x 100 gives. -/
def chainTree : PlaneTree := .leaf ⟨0, 0, 100, 100⟩ 4 chainBodies

end BallSelf


namespace Ball2

/-- A body of `弹球2.js` (`class Circle`): the fields the tree reads.  `id`
stands for the object reference and `color` for the colour string. -/
structure Circle where
  id : Nat
  x : ℚ
  y : ℚ
  r : ℚ
  color : Nat
  deriving DecidableEq, Repr

/-- The class `Boundary`. -/
structure Boundary where
  x : ℚ
  y : ℚ
  w : ℚ
  h : ℚ
  deriving DecidableEq, Repr

/-- A `QuadTree` object of `弹球2.js`: `leaf` is the state `subtrees = []`,
`node` the state after `subdivide`, `subtrees = [nw, ne, sw, se]`. -/
inductive QuadTree where
  | leaf (boundary : Boundary) (capacity : Nat) (points : List Circle)
  | node (boundary : Boundary) (capacity : Nat) (points : List Circle)
      (s0 s1 s2 s3 : QuadTree)
  deriving DecidableEq, Repr

namespace QuadTree

/-- The field `this.boundary`. -/
def boundary : QuadTree → Boundary
  | leaf b _ _ => b
  | node b _ _ _ _ _ _ => b

/-- The field `this.capacity`. -/
def capacity : QuadTree → Nat
  | leaf _ c _ => c
  | node _ c _ _ _ _ _ => c

/-- The field `this.points`. -/
def points : QuadTree → List Circle
  | leaf _ _ ps => ps
  | node _ _ ps _ _ _ _ => ps

/-- The call `new QuadTree(boundary, capacity)`. -/
def new (boundary : Boundary) (capacity : Nat) : QuadTree := .leaf boundary capacity []

end QuadTree

/-- The method `QuadTree.contains`. -/
def contains (boundary : Boundary) (circle : Circle) : Bool :=
  circle.x ≥ boundary.x && circle.x - circle.r ≤ boundary.x + boundary.w &&
    circle.y ≥ boundary.y && circle.y - circle.r ≤ boundary.y + boundary.h

/-- The array `subtrees` that `QuadTree.subdivide` fills. -/
def subdivide (boundary : Boundary) (capacity : Nat) :
    QuadTree × QuadTree × QuadTree × QuadTree :=
  let x := boundary.x
  let y := boundary.y
  let w := boundary.w
  let h := boundary.h
  let nw : Boundary := ⟨x, y, w / 2, h / 2⟩
  let ne : Boundary := ⟨x + w / 2, y, w / 2, h / 2⟩
  let sw : Boundary := ⟨x, y + h / 2, w / 2, h / 2⟩
  let se : Boundary := ⟨x + w / 2, y + h / 2, w / 2, h / 2⟩
  (QuadTree.new nw capacity, QuadTree.new ne capacity, QuadTree.new sw capacity,
    QuadTree.new se capacity)

/-- The loop `for (const subtree of this.subtrees)` of `QuadTree.insert`:
`ins` is `subtree.insert(circle)`, whose result is `some true`, `some false`
or `none` for `undefined`; the loop returns `true` at the first subtree whose
`insert` is truthy and falls through to `undefined` otherwise. -/
def insertInto (ins : QuadTree → Option (QuadTree × Option Bool))
    (s0 s1 s2 s3 : QuadTree) :
    Option ((QuadTree × QuadTree × QuadTree × QuadTree) × Option Bool) :=
  match ins s0 with
  | none => none
  | some (m0, r0) =>
    if r0 = some true then some ((m0, s1, s2, s3), some true)
    else match ins s1 with
      | none => none
      | some (m1, r1) =>
        if r1 = some true then some ((m0, m1, s2, s3), some true)
        else match ins s2 with
          | none => none
          | some (m2, r2) =>
            if r2 = some true then some ((m0, m1, m2, s3), some true)
            else match ins s3 with
              | none => none
              | some (m3, r3) =>
                if r3 = some true then some ((m0, m1, m2, m3), some true)
                else some ((m0, m1, m2, m3), none)

/-- The method `QuadTree.insert`, with `fuel` bounding the depth of the
recursion.  The result is the node after the call and the value returned:
`some true`, `some false`, or `none` for `undefined`. -/
def insert : Nat → QuadTree → Circle → Option (QuadTree × Option Bool)
  | 0, _, _ => none
  | fuel + 1, .leaf boundary capacity points, circ =>
    if contains boundary circ = false then some (.leaf boundary capacity points, some false)
    else if points.length < capacity then
      some (.leaf boundary capacity (points ++ [circ]), some true)
    else
      match subdivide boundary capacity with
      | (s0, s1, s2, s3) =>
        match insertInto (fun s => insert fuel s circ) s0 s1 s2 s3 with
        | some ((m0, m1, m2, m3), res) => some (.node boundary capacity points m0 m1 m2 m3, res)
        | none => none
  | fuel + 1, .node boundary capacity points s0 s1 s2 s3, circ =>
    if contains boundary circ = false then
      some (.node boundary capacity points s0 s1 s2 s3, some false)
    else if points.length < capacity then
      some (.node boundary capacity (points ++ [circ]) s0 s1 s2 s3, some true)
    else
      match insertInto (fun s => insert fuel s circ) s0 s1 s2 s3 with
      | some ((m0, m1, m2, m3), res) => some (.node boundary capacity points m0 m1 m2 m3, res)
      | none => none

/-- Inserting the bodies of a list one after another, the results of
`insert` dropped, as the loop of `animate` does. -/
def insertAll (fuel : Nat) : QuadTree → List Circle → Option QuadTree
  | t, [] => some t
  | t, c :: cs =>
    match insert fuel t c with
    | some (t1, _) => insertAll fuel t1 cs
    | none => none

/-- The test of `getCollisions` on two points: `Math.sqrt(dx ** 2 + dy ** 2)
<= p.r + q.r`. -/
def near (p q : Circle) : Bool :=
  decide (0 ≤ p.r + q.r ∧ (p.x - q.x) ^ 2 + (p.y - q.y) ^ 2 ≤ (p.r + q.r) ^ 2)

/-- The inner loop of `getCollisions`, `for (let j = i + 1; ...)`, for the
point `p = points[i]` and the points after it. -/
def pairsWith (p : Circle) : List Circle → List (Circle × Circle)
  | [] => []
  | q :: rest =>
    if p.color = q.color then pairsWith p rest
    else if near p q = true then (p, q) :: pairsWith p rest
    else pairsWith p rest

/-- The outer loop of `getCollisions` over `this.points`. -/
def nodeCollisions : List Circle → List (Circle × Circle)
  | [] => []
  | p :: rest => pairsWith p rest ++ nodeCollisions rest

/-- The method `QuadTree.getCollisions`. -/
def getCollisions : QuadTree → List (Circle × Circle)
  | .leaf _ _ points => nodeCollisions points
  | .node _ _ points s0 s1 s2 s3 =>
    (((nodeCollisions points ++ getCollisions s0) ++ getCollisions s1) ++
      getCollisions s2) ++ getCollisions s3

/-- Every point of the subtree, node first, then the subtrees in order. -/
def allPoints : QuadTree → List Circle
  | .leaf _ _ points => points
  | .node _ _ points s0 s1 s2 s3 =>
    points ++ (allPoints s0 ++ (allPoints s1 ++ (allPoints s2 ++ allPoints s3)))

/-- Number of levels below this node at which a node exists. -/
def height : QuadTree → Nat
  | .leaf _ _ _ => 0
  | .node _ _ _ s0 s1 s2 s3 =>
    1 + max (max (height s0) (height s1)) (max (height s2) (height s3))

/-- A tree as `insert` builds it: every node has the capacity `cap` and at
most `cap` points, and the subtrees of a node have the boundaries
`subdivide` gives them. -/
def WF (cap : Nat) : QuadTree → Prop
  | .leaf _ capacity points => capacity = cap ∧ points.length ≤ cap
  | .node boundary capacity points s0 s1 s2 s3 =>
    capacity = cap ∧ points.length ≤ cap ∧
    s0.boundary = (subdivide boundary cap).1.boundary ∧
    s1.boundary = (subdivide boundary cap).2.1.boundary ∧
    s2.boundary = (subdivide boundary cap).2.2.1.boundary ∧
    s3.boundary = (subdivide boundary cap).2.2.2.boundary ∧
    WF cap s0 ∧ WF cap s1 ∧ WF cap s2 ∧ WF cap s3

/-- Five bodies of radius 5 in the plane 100 x 100: the first four have the
colour 1 and are far apart, the fifth has the colour 2 and overlaps the
first. -/
def crossBodies : List Circle :=
  [⟨1, 10, 10, 5, 1⟩, ⟨2, 80, 80, 5, 1⟩, ⟨3, 80, 20, 5, 1⟩, ⟨4, 20, 80, 5, 1⟩,
    ⟨5, 12, 10, 5, 2⟩]

/-- The tree that inserting `crossBodies` into
`new QuadTree(new Boundary(0, 0, 100, 100), 4)` gives. -/
def crossTree : QuadTree :=
  .node ⟨0, 0, 100, 100⟩ 4
    [⟨1, 10, 10, 5, 1⟩, ⟨2, 80, 80, 5, 1⟩, ⟨3, 80, 20, 5, 1⟩, ⟨4, 20, 80, 5, 1⟩]
    (.leaf ⟨0, 0, 50, 50⟩ 4 [⟨5, 12, 10, 5, 2⟩])
    (.leaf ⟨50, 0, 50, 50⟩ 4 [])
    (.leaf ⟨0, 50, 50, 50⟩ 4 [])
    (.leaf ⟨50, 50, 50, 50⟩ 4 [])

end Ball2


/-! ## The theorems -/

namespace Ball1

theorem Nodes.All.get {P : Int → Quadtree → Prop} {ns : Nodes} (h : ns.All P)
    {i : Int} (hi : i = 0 ∨ i = 1 ∨ i = 2 ∨ i = 3) : P i (ns.get i) := by
  obtain ⟨h0, h1, h2, h3⟩ := h
  rcases hi with rfl | rfl | rfl | rfl <;> simp [Nodes.get] <;> assumption

theorem Nodes.All.set {P : Int → Quadtree → Prop} {ns : Nodes} (h : ns.All P)
    {i : Int} (hi : i = 0 ∨ i = 1 ∨ i = 2 ∨ i = 3) {c : Quadtree} (hc : P i c) :
    (ns.set i c).All P := by
  obtain ⟨h0, h1, h2, h3⟩ := h
  rcases hi with rfl | rfl | rfl | rfl <;> simp [Nodes.set, Nodes.All] <;>
    refine ⟨?_, ?_, ?_, ?_⟩ <;> assumption

theorem Nodes.All.imp {P Q : Int → Quadtree → Prop} {ns : Nodes} (h : ns.All P)
    (hPQ : ∀ i c, P i c → Q i c) : ns.All Q :=
  ⟨hPQ _ _ h.1, hPQ _ _ h.2.1, hPQ _ _ h.2.2.1, hPQ _ _ h.2.2.2⟩

theorem Nodes.fields_set (ns : Nodes) {i : Int} (hi : i = 0 ∨ i = 1 ∨ i = 2 ∨ i = 3)
    {c : Quadtree} (hc : c.fields = (ns.get i).fields) :
    (ns.set i c).fields = ns.fields := by
  rcases hi with rfl | rfl | rfl | rfl <;>
    simp [Nodes.set, Nodes.get, Nodes.fields] at hc ⊢ <;> exact hc

theorem Nodes.allObjects_set (ns : Nodes) {i : Int} (hi : i = 0 ∨ i = 1 ∨ i = 2 ∨ i = 3)
    {c : Quadtree} {o : Circle}
    (hc : (Ball1.allObjects c).Perm (Ball1.allObjects (ns.get i) ++ [o])) :
    ((ns.set i c).allObjects).Perm (ns.allObjects ++ [o]) := by
  rw [List.perm_iff_count]
  intro a
  rcases hi with rfl | rfl | rfl | rfl <;>
    simp [Nodes.set, Nodes.get, Nodes.allObjects, List.count_append] at hc ⊢ <;>
    · have := hc.count_eq a
      simp [List.count_append] at this
      omega

theorem allObjects_node (s : Fields) (objects : List Circle) (ns : Nodes) :
    allObjects (.node s objects ns.1 ns.2.1 ns.2.2.1 ns.2.2.2) =
      objects ++ ns.allObjects := rfl

theorem allObjects_split (s : Fields) : (split s).allObjects = [] := rfl

theorem getIndex_cases (s : Fields) (obj : Circle) :
    getIndex s obj = -1 ∨ getIndex s obj = 0 ∨ getIndex s obj = 1 ∨
      getIndex s obj = 2 ∨ getIndex s obj = 3 := by
  unfold getIndex
  simp only
  split_ifs <;> simp

theorem getIndex_mem_range {s : Fields} {obj : Circle} (h : getIndex s obj ≠ -1) :
    getIndex s obj = 0 ∨ getIndex s obj = 1 ∨ getIndex s obj = 2 ∨
      getIndex s obj = 3 := by
  rcases getIndex_cases s obj with h1 | h1
  · exact absurd h1 h
  · exact h1

theorem getIndex_ne_iff (s : Fields) (obj : Circle) :
    getIndex s obj ≠ -1 ↔
      (obj.x + obj.radius < s.x + s.w / 2 ∨ obj.x - obj.radius > s.x + s.w / 2) ∧
      (obj.y + obj.radius < s.y + s.h / 2 ∨ obj.y - obj.radius > s.y + s.h / 2) := by
  unfold getIndex
  simp only [decide_eq_true_eq]
  split_ifs <;> simp_all

theorem pushDown_spec (ins : Quadtree → Circle → Option Quadtree) (s : Fields)
    (hins : ∀ c o c1, ins c o = some c1 →
      c1.fields = c.fields ∧ (allObjects c1).Perm (allObjects c ++ [o]) ∧
        (Placed c → Placed c1)) :
    ∀ (l kept : List Circle) (ns : Nodes) (kept1 : List Circle) (ns1 : Nodes),
      pushDown ins s l kept ns = some (kept1, ns1) →
      ns1.fields = ns.fields ∧
      (kept1 ++ ns1.allObjects).Perm (kept ++ ns.allObjects ++ l) ∧
      ((∀ b ∈ kept, getIndex s b = -1) →
        ns.All (fun i c => (∀ b ∈ allObjects c, getIndex s b = i) ∧ Placed c) →
        (∀ b ∈ kept1, getIndex s b = -1) ∧
        ns1.All (fun i c => (∀ b ∈ allObjects c, getIndex s b = i) ∧ Placed c)) := by
  intro l
  induction l with
  | nil =>
    intro kept ns kept1 ns1 h
    simp only [pushDown, Option.some.injEq, Prod.mk.injEq] at h
    obtain ⟨rfl, rfl⟩ := h
    exact ⟨rfl, by simp, fun hk hn => ⟨hk, hn⟩⟩
  | cons o rest ih =>
    intro kept ns kept1 ns1 h
    simp only [pushDown] at h
    by_cases hidx : getIndex s o = -1
    · simp only [hidx, ne_eq, not_true_eq_false, if_false] at h
      obtain ⟨hf, hp, hpl⟩ := ih _ _ _ _ h
      refine ⟨hf, ?_, ?_⟩
      · refine hp.trans ?_
        rw [List.perm_iff_count]
        intro a
        simp [List.count_append, List.count_cons]
        omega
      · intro hk hn
        refine hpl ?_ hn
        intro b hb
        rcases List.mem_append.1 hb with hb | hb
        · exact hk b hb
        · rw [List.mem_singleton.1 hb]; exact hidx
    · have hr := getIndex_mem_range hidx
      simp only [ne_eq, hidx, not_false_eq_true, if_true] at h
      cases hc : ins (ns.get (getIndex s o)) o with
      | none => simp [hc] at h
      | some c =>
        simp only [hc] at h
        obtain ⟨hcf, hcp, hcpl⟩ := hins _ _ _ hc
        obtain ⟨hf, hp, hpl⟩ := ih _ _ _ _ h
        refine ⟨hf.trans (Nodes.fields_set ns hr hcf), ?_, ?_⟩
        · refine hp.trans ?_
          have h2 := Nodes.allObjects_set ns hr hcp
          rw [List.perm_iff_count] at h2 ⊢
          intro a
          have h3 := h2 a
          simp [List.count_append, List.count_cons] at h3 ⊢
          omega
        · intro hk hn
          refine hpl hk (hn.set hr ⟨?_, hcpl (hn.get hr).2⟩)
          intro b hb
          rcases List.mem_append.1 (hcp.subset hb) with hb | hb
          · exact (hn.get hr).1 b hb
          · rw [List.mem_singleton.1 hb]

theorem placed_split (s : Fields) :
    (split s).All (fun i c => (∀ b ∈ allObjects c, getIndex s b = i) ∧ Placed c) := by
  simp [split, Nodes.All, DynamicQuadtree.new, allObjects, Placed]

theorem insert_spec : ∀ (fuel : Nat) (t : Quadtree) (obj : Circle) (t1 : Quadtree),
    insert fuel t obj = some t1 →
    t1.fields = t.fields ∧ (allObjects t1).Perm (allObjects t ++ [obj]) ∧
      (Placed t → Placed t1) := by
  intro fuel
  induction fuel with
  | zero => intro t obj t1 h; simp [insert] at h
  | succ fuel ih =>
    intro t obj t1 h
    cases t with
    | leaf s objects =>
      simp only [insert] at h
      split_ifs at h with hov
      · cases hpd : pushDown (insert fuel) s (objects ++ [obj]) [] (split s) with
        | none => simp [hpd] at h
        | some r =>
          obtain ⟨kept, ns⟩ := r
          simp only [hpd, Option.some.injEq] at h
          subst h
          obtain ⟨_, hp, hpl⟩ := pushDown_spec (insert fuel) s ih _ _ _ _ _ hpd
          refine ⟨rfl, ?_, ?_⟩
          · rw [allObjects_node]
            simpa [allObjects_split, allObjects] using hp
          · intro _
            have := hpl (by simp) (placed_split s)
            exact ⟨this.1, this.2⟩
      · simp only [Option.some.injEq] at h
        subst h
        exact ⟨rfl, by simp [allObjects], fun _ => trivial⟩
    | node s objects n0 n1 n2 n3 =>
      simp only [insert] at h
      by_cases hidx : getIndex s obj = -1
      · simp only [hidx, ne_eq, not_true_eq_false, if_false] at h
        split_ifs at h with hov
        · cases hpd : pushDown (insert fuel) s (objects ++ [obj]) [] (n0, n1, n2, n3) with
          | none => simp [hpd] at h
          | some r =>
            obtain ⟨kept, ns⟩ := r
            simp only [hpd, Option.some.injEq] at h
            subst h
            obtain ⟨_, hp, hpl⟩ := pushDown_spec (insert fuel) s ih _ _ _ _ _ hpd
            refine ⟨rfl, ?_, ?_⟩
            · rw [allObjects_node]
              refine hp.trans ?_
              rw [List.perm_iff_count]
              intro a
              simp [allObjects, Nodes.allObjects, List.count_append]
              omega
            · intro hP
              have := hpl (by simp) hP.2
              exact ⟨this.1, this.2⟩
        · simp only [Option.some.injEq] at h
          subst h
          refine ⟨rfl, ?_, ?_⟩
          · rw [List.perm_iff_count]
            intro a
            simp only [allObjects, List.count_append, List.append_assoc]
            omega
          · intro hP
            refine ⟨?_, hP.2⟩
            intro b hb
            rcases List.mem_append.1 hb with hb | hb
            · exact hP.1 b hb
            · rw [List.mem_singleton.1 hb]; exact hidx
      · have hr := getIndex_mem_range hidx
        simp only [ne_eq, hidx, not_false_eq_true, if_true] at h
        cases hc : insert fuel (Nodes.get (n0, n1, n2, n3) (getIndex s obj)) obj with
        | none => simp [hc] at h
        | some c =>
          simp only [hc, Option.some.injEq] at h
          subst h
          obtain ⟨hcf, hcp, hcpl⟩ := ih _ _ _ hc
          refine ⟨rfl, ?_, ?_⟩
          · rw [allObjects_node]
            have h2 := Nodes.allObjects_set (n0, n1, n2, n3) hr hcp
            rw [List.perm_iff_count] at h2 ⊢
            intro a
            have h3 := h2 a
            simp [allObjects, Nodes.allObjects, List.count_append] at h3 ⊢
            omega
          · intro hP
            have hn : Nodes.All (fun i c => (∀ b ∈ allObjects c, getIndex s b = i) ∧ Placed c)
                (n0, n1, n2, n3) := hP.2
            have := hn.set hr (c := c) ⟨?_, hcpl (hn.get hr).2⟩
            · exact ⟨hP.1, this⟩
            · intro b hb
              rcases List.mem_append.1 (hcp.subset hb) with hb | hb
              · exact (hn.get hr).1 b hb
              · rw [List.mem_singleton.1 hb]


theorem insertAll_spec (fuel : Nat) : ∀ (bs : List Circle) (t t1 : Quadtree),
    insertAll fuel t bs = some t1 →
    t1.fields = t.fields ∧ (allObjects t1).Perm (allObjects t ++ bs) ∧
      (Placed t → Placed t1) := by
  intro bs
  induction bs with
  | nil =>
    intro t t1 h
    simp only [insertAll, Option.some.injEq] at h
    subst h
    exact ⟨rfl, by simp, id⟩
  | cons b bs ih =>
    intro t t1 h
    simp only [insertAll] at h
    cases hb : insert fuel t b with
    | none => simp [hb] at h
    | some t2 =>
      simp only [hb] at h
      obtain ⟨hf, hp, hpl⟩ := insert_spec _ _ _ _ hb
      obtain ⟨hf2, hp2, hpl2⟩ := ih _ _ h
      refine ⟨hf2.trans hf, ?_, fun hP => hpl2 (hpl hP)⟩
      refine hp2.trans ?_
      rw [List.perm_iff_count] at hp ⊢
      intro a
      have h3 := hp a
      simp only [List.count_append, List.count_cons, List.count_nil] at h3 ⊢
      omega

theorem inside_child {s : Fields} {b : Circle} (hin : Inside s b)
    (h : getIndex s b ≠ -1) : Inside ((split s).get (getIndex s b)).fields b := by
  obtain ⟨h1, h2, h3, h4⟩ := hin
  have hq := (getIndex_ne_iff s b).1 h
  revert h hq
  unfold getIndex
  simp only [decide_eq_true_eq]
  split_ifs <;> intro h hq <;>
    simp [split, Nodes.get, DynamicQuadtree.new, Quadtree.fields, Inside] at h ⊢ <;>
    refine ⟨?_, ?_, ?_, ?_⟩ <;> linarith

theorem width_child (s : Fields) (i : Int) : ((split s).get i).fields.w = s.w / 2 := by
  unfold Nodes.get split DynamicQuadtree.new
  split_ifs <;> rfl

theorem good_node (ρ : ℚ) (s : Fields) (objects : List Circle) (ns : Nodes) :
    Good ρ (.node s objects ns.1 ns.2.1 ns.2.2.1 ns.2.2.2) ↔
      (∀ b ∈ objects, Inside s b ∧ ρ ≤ b.radius) ∧
      ns.All (fun i c => c.fields = ((split s).get i).fields ∧ Good ρ c) := by
  simp [Good, Nodes.All, Nodes.get]

theorem good_split (ρ : ℚ) (s : Fields) :
    (split s).All (fun i c => c.fields = ((split s).get i).fields ∧ Good ρ c) := by
  simp [split, Nodes.All, Nodes.get, DynamicQuadtree.new, Good]

theorem pushDown_total (ρ : ℚ) (ins : Quadtree → Circle → Option Quadtree) (s : Fields)
    (hins : ∀ c o, Good ρ c → Inside c.fields o → ρ ≤ o.radius → c.fields.w = s.w / 2 →
      ∃ c1, ins c o = some c1 ∧ Good ρ c1 ∧ c1.fields = c.fields) :
    ∀ (l kept : List Circle) (ns : Nodes),
      (∀ b ∈ l, Inside s b ∧ ρ ≤ b.radius) →
      (∀ b ∈ kept, Inside s b ∧ ρ ≤ b.radius) →
      ns.All (fun i c => c.fields = ((split s).get i).fields ∧ Good ρ c) →
      ∃ kept1 ns1, pushDown ins s l kept ns = some (kept1, ns1) ∧
        (∀ b ∈ kept1, Inside s b ∧ ρ ≤ b.radius) ∧
        ns1.All (fun i c => c.fields = ((split s).get i).fields ∧ Good ρ c) := by
  intro l
  induction l with
  | nil =>
    intro kept ns _ hk hn
    exact ⟨kept, ns, rfl, hk, hn⟩
  | cons o rest ih =>
    intro kept ns hl hk hn
    have ho := hl o (List.mem_cons_self _ _)
    have hrest : ∀ b ∈ rest, Inside s b ∧ ρ ≤ b.radius :=
      fun b hb => hl b (List.mem_cons_of_mem _ hb)
    simp only [pushDown]
    by_cases hidx : getIndex s o = -1
    · simp only [hidx, ne_eq, not_true_eq_false, if_false]
      refine ih _ _ hrest ?_ hn
      intro b hb
      rcases List.mem_append.1 hb with hb | hb
      · exact hk b hb
      · rw [List.mem_singleton.1 hb]; exact ho
    · have hr := getIndex_mem_range hidx
      simp only [ne_eq, hidx, not_false_eq_true, if_true]
      have hc := hn.get hr
      obtain ⟨c1, hc1, hg1, hf1⟩ := hins (ns.get (getIndex s o)) o hc.2
        (by rw [hc.1]; exact inside_child ho.1 hidx) ho.2
        (by rw [hc.1]; exact width_child s _)
      simp only [hc1]
      exact ih _ _ hrest hk (hn.set hr ⟨hf1.trans hc.1, hg1⟩)

theorem insert_total (ρ : ℚ) : ∀ (fuel : Nat) (t : Quadtree) (obj : Circle),
    Good ρ t → Inside t.fields obj → ρ ≤ obj.radius →
    t.fields.w < 2 ^ fuel * (2 * ρ) →
    ∃ t1, insert fuel t obj = some t1 ∧ Good ρ t1 ∧ t1.fields = t.fields := by
  intro fuel
  induction fuel with
  | zero =>
    intro t obj _ hin hr hw
    obtain ⟨h1, h2, _, _⟩ := hin
    simp only [pow_zero, one_mul] at hw
    exfalso
    linarith
  | succ fuel ih =>
    intro t obj hg hin hr hw
    have hins : ∀ (s : Fields), s.w < 2 ^ (fuel + 1) * (2 * ρ) →
        ∀ c o, Good ρ c → Inside c.fields o → ρ ≤ o.radius → c.fields.w = s.w / 2 →
        ∃ c1, insert fuel c o = some c1 ∧ Good ρ c1 ∧ c1.fields = c.fields := by
      intro s hs c o hc ho hro hcw
      refine ih c o hc ho hro ?_
      rw [hcw]
      rw [pow_succ] at hs
      linarith
    cases t with
    | leaf s objects =>
      have hall : ∀ b ∈ objects ++ [obj], Inside s b ∧ ρ ≤ b.radius := by
        intro b hb
        rcases List.mem_append.1 hb with hb | hb
        · exact hg b hb
        · rw [List.mem_singleton.1 hb]; exact ⟨hin, hr⟩
      simp only [insert]
      split_ifs with hov
      · obtain ⟨kept1, ns1, hpd, hk1, hn1⟩ :=
          pushDown_total ρ (insert fuel) s (hins s hw) (objects ++ [obj]) [] (split s)
            hall (by simp) (good_split ρ s)
        simp only [hpd]
        exact ⟨_, rfl, (good_node ρ s kept1 ns1).2 ⟨hk1, hn1⟩, rfl⟩
      · exact ⟨_, rfl, hall, rfl⟩
    | node s objects n0 n1 n2 n3 =>
      have hg2 := (good_node ρ s objects (n0, n1, n2, n3)).1 hg
      have hall : ∀ b ∈ objects ++ [obj], Inside s b ∧ ρ ≤ b.radius := by
        intro b hb
        rcases List.mem_append.1 hb with hb | hb
        · exact hg2.1 b hb
        · rw [List.mem_singleton.1 hb]; exact ⟨hin, hr⟩
      simp only [insert]
      by_cases hidx : getIndex s obj = -1
      · simp only [hidx, ne_eq, not_true_eq_false, if_false]
        split_ifs with hov
        · obtain ⟨kept1, ns1, hpd, hk1, hn1⟩ :=
            pushDown_total ρ (insert fuel) s (hins s hw) (objects ++ [obj]) []
              (n0, n1, n2, n3) hall (by simp) hg2.2
          simp only [hpd]
          exact ⟨_, rfl, (good_node ρ s kept1 ns1).2 ⟨hk1, hn1⟩, rfl⟩
        · exact ⟨_, rfl, (good_node ρ s _ (n0, n1, n2, n3)).2 ⟨hall, hg2.2⟩, rfl⟩
      · have hrg := getIndex_mem_range hidx
        simp only [ne_eq, hidx, not_false_eq_true, if_true]
        have hc := hg2.2.get hrg
        obtain ⟨c1, hc1, hg1, hf1⟩ := hins s hw (Nodes.get (n0, n1, n2, n3) (getIndex s obj))
          obj hc.2 (by rw [hc.1]; exact inside_child hin hidx) hr
          (by rw [hc.1]; exact width_child s _)
        simp only [hc1]
        exact ⟨_, rfl, (good_node ρ s objects _).2
          ⟨hg2.1, hg2.2.set hrg ⟨hf1.trans hc.1, hg1⟩⟩, rfl⟩

theorem insertAll_total (ρ : ℚ) (fuel : Nat) : ∀ (bs : List Circle) (t : Quadtree),
    Good ρ t → (∀ b ∈ bs, Inside t.fields b ∧ ρ ≤ b.radius) →
    t.fields.w < 2 ^ fuel * (2 * ρ) →
    ∃ t1, insertAll fuel t bs = some t1 ∧ Good ρ t1 := by
  intro bs
  induction bs with
  | nil => intro t hg _ _; exact ⟨t, rfl, hg⟩
  | cons b bs ih =>
    intro t hg hbs hw
    obtain ⟨t2, h2, hg2, hf2⟩ := insert_total ρ fuel t b hg
      (hbs b (List.mem_cons_self _ _)).1 (hbs b (List.mem_cons_self _ _)).2 hw
    simp only [insertAll, h2]
    refine ih t2 hg2 ?_ (by rw [hf2]; exact hw)
    intro c hc
    rw [hf2]
    exact hbs c (List.mem_cons_of_mem _ hc)

theorem exists_radius_bound : ∀ (bs : List Circle), (∀ b ∈ bs, 0 < b.radius) →
    ∃ ρ : ℚ, 0 < ρ ∧ ∀ b ∈ bs, ρ ≤ b.radius := by
  intro bs
  induction bs with
  | nil => intro _; exact ⟨1, by norm_num, by simp⟩
  | cons b bs ih =>
    intro h
    obtain ⟨ρ, hρ, hρb⟩ := ih (fun c hc => h c (List.mem_cons_of_mem _ hc))
    have hb := h b (List.mem_cons_self _ _)
    refine ⟨min ρ b.radius, lt_min hρ hb, ?_⟩
    intro c hc
    rcases List.mem_cons.1 hc with rfl | hc
    · exact min_le_right _ _
    · exact (min_le_left _ _).trans (hρb c hc)

theorem exists_fuel (w ρ : ℚ) (hρ : 0 < ρ) : ∃ fuel : Nat, w < 2 ^ fuel * (2 * ρ) := by
  obtain ⟨n, hn⟩ := pow_unbounded_of_one_lt (w / (2 * ρ)) (by norm_num : (1 : ℚ) < 2)
  refine ⟨n, ?_⟩
  have h2 : (0 : ℚ) < 2 * ρ := by linarith
  rwa [div_lt_iff₀ h2] at hn

/-- Inserting bodies with positive radius whose circles lie in the region of
an empty root returns a tree, given enough fuel. -/
theorem insertAll_terminates (s : Fields) (bs : List Circle)
    (hin : ∀ b ∈ bs, Inside s b ∧ 0 < b.radius) :
    ∃ fuel t, insertAll fuel (.leaf s []) bs = some t := by
  obtain ⟨ρ, hρ, hρb⟩ := exists_radius_bound bs (fun b hb => (hin b hb).2)
  obtain ⟨fuel, hfuel⟩ := exists_fuel s.w ρ hρ
  obtain ⟨t, ht, _⟩ := insertAll_total ρ fuel bs (.leaf s []) (by simp [Good])
    (fun b hb => ⟨(hin b hb).1, hρb b hb⟩) hfuel
  exact ⟨fuel, t, ht⟩


/-- C2. Inserting distinct bodies (circle inside the root region, radius
above 0) into an empty root returns a tree, and in every tree it returns the
resident lists together hold exactly the inserted bodies, each once; every
single `insert` adds exactly the new body to the residents of the tree. -/
theorem insert_no_dup_no_loss (s : Fields) (bs : List Circle)
    (hid : (bs.map Circle.id).Nodup)
    (hin : ∀ b ∈ bs, Inside s b ∧ 0 < b.radius) :
    (∃ fuel t, insertAll fuel (.leaf s []) bs = some t) ∧
    (∀ fuel t, insertAll fuel (.leaf s []) bs = some t →
      (allObjects t).Perm bs ∧ (∀ b ∈ bs, (allObjects t).count b = 1) ∧
        (∀ b, b ∉ bs → (allObjects t).count b = 0)) ∧
    (∀ fuel t obj t1, insert fuel t obj = some t1 →
      (allObjects t1).Perm (allObjects t ++ [obj])) := by
  refine ⟨insertAll_terminates s bs hin, ?_, fun fuel t obj t1 h => (insert_spec fuel t obj t1 h).2.1⟩
  intro fuel t ht
  have hp : (allObjects t).Perm bs := by
    simpa [allObjects] using (insertAll_spec fuel bs _ _ ht).2.1
  have hnd : bs.Nodup := List.Nodup.of_map _ hid
  refine ⟨hp, ?_, ?_⟩
  · intro b hb
    rw [hp.count_eq]
    exact List.count_eq_one_of_mem hnd hb
  · intro b hb
    rw [hp.count_eq]
    exact List.count_eq_zero_of_not_mem hb

/-- C2 at five bodies of radius 1 at (10, 10) in the plane 100 x 100. -/
theorem insert_no_dup_no_loss_witness :
    (fiveAt10.map Circle.id).Nodup ∧
    (∀ b ∈ fiveAt10, Inside ⟨0, 0, 100, 100, 0, 4, 4⟩ b ∧ 0 < b.radius) ∧
    ((∃ fuel t, insertAll fuel (.leaf ⟨0, 0, 100, 100, 0, 4, 4⟩ []) fiveAt10 = some t) ∧
    (∀ fuel t, insertAll fuel (.leaf ⟨0, 0, 100, 100, 0, 4, 4⟩ []) fiveAt10 = some t →
      (allObjects t).Perm fiveAt10 ∧ (∀ b ∈ fiveAt10, (allObjects t).count b = 1) ∧
        (∀ b, b ∉ fiveAt10 → (allObjects t).count b = 0)) ∧
    (∀ fuel t obj t1, insert fuel t obj = some t1 →
      (allObjects t1).Perm (allObjects t ++ [obj]))) :=
  ⟨by decide, by decide!,
    insert_no_dup_no_loss ⟨0, 0, 100, 100, 0, 4, 4⟩ fiveAt10 (by decide) (by decide!)⟩


theorem setAdd_mono {found : List Circle} {other c : Circle} (h : c ∈ found) :
    c ∈ setAdd found other := by
  unfold setAdd
  split_ifs
  · exact h
  · exact List.mem_append_left _ h

theorem setAdd_subset {found : List Circle} {other c : Circle}
    (h : c ∈ setAdd found other) : c ∈ found ∨ c = other := by
  unfold setAdd at h
  split_ifs at h
  · exact Or.inl h
  · rcases List.mem_append.1 h with h | h
    · exact Or.inl h
    · exact Or.inr (List.mem_singleton.1 h)

theorem setAdd_mem {found : List Circle} {C : Circle}
    (hf : ∀ c ∈ found, c.id = C.id → c = C) : C ∈ setAdd found C := by
  unfold setAdd
  split_ifs with h
  · obtain ⟨c, hc, hid⟩ := List.any_eq_true.1 h
    have := hf c hc (by simpa using hid)
    rwa [this] at hc
  · simp

theorem queryScan_mono (obj : Circle) : ∀ (objects found : List Circle) (c : Circle),
    c ∈ found → c ∈ queryScan obj objects found := by
  intro objects
  induction objects with
  | nil => intro found c h; exact h
  | cons o rest ih =>
    intro found c h
    simp only [queryScan]
    split_ifs
    · exact ih _ _ (setAdd_mono h)
    · exact ih _ _ h

theorem queryScan_subset (obj : Circle) : ∀ (objects found : List Circle) (c : Circle),
    c ∈ queryScan obj objects found →
      c ∈ found ∨ (c ∈ objects ∧ c.id ≠ obj.id ∧ collidesWith obj c = true) := by
  intro objects
  induction objects with
  | nil => intro found c h; exact Or.inl h
  | cons o rest ih =>
    intro found c h
    simp only [queryScan] at h
    split_ifs at h with hc
    · rcases ih _ _ h with h1 | h1
      · rcases setAdd_subset h1 with h2 | h2
        · exact Or.inl h2
        · subst h2
          exact Or.inr ⟨List.mem_cons_self _ _, hc.1, hc.2⟩
      · exact Or.inr ⟨List.mem_cons_of_mem _ h1.1, h1.2⟩
    · rcases ih _ _ h with h1 | h1
      · exact Or.inl h1
      · exact Or.inr ⟨List.mem_cons_of_mem _ h1.1, h1.2⟩

theorem queryScan_mem (B C : Circle) (hid : C.id ≠ B.id) (hcol : collidesWith B C = true) :
    ∀ (objects found : List Circle), C ∈ objects →
      (∀ c ∈ objects, c.id = C.id → c = C) → (∀ c ∈ found, c.id = C.id → c = C) →
      C ∈ queryScan B objects found := by
  intro objects
  induction objects with
  | nil => intro found h; simp at h
  | cons o rest ih =>
    intro found hC ho hf
    simp only [queryScan]
    by_cases hoC : o = C
    · subst hoC
      rw [if_pos ⟨hid, hcol⟩]
      exact queryScan_mono _ _ _ _ (setAdd_mem hf)
    · have hCr : C ∈ rest := by
        rcases List.mem_cons.1 hC with h | h
        · exact absurd h.symm hoC
        · exact h
      have hor : ∀ c ∈ rest, c.id = C.id → c = C :=
        fun c hc => ho c (List.mem_cons_of_mem _ hc)
      split_ifs
      · refine ih _ hCr hor ?_
        intro c hc hcid
        rcases setAdd_subset hc with h | h
        · exact hf c h hcid
        · subst h
          exact ho c (List.mem_cons_self _ _) hcid
      · exact ih _ hCr hor hf

theorem query_node (s : Fields) (objects : List Circle) (n0 n1 n2 n3 : Quadtree)
    (obj : Circle) (found : List Circle) :
    query (.node s objects n0 n1 n2 n3) obj found =
      queryScan obj objects
        (if getIndex s obj = -1 then found
         else query (Nodes.get (n0, n1, n2, n3) (getIndex s obj)) obj found) := by
  rcases getIndex_cases s obj with h | h | h | h | h <;> simp [query, h, Nodes.get]

theorem query_subset : ∀ (t : Quadtree) (obj : Circle) (found : List Circle) (c : Circle),
    c ∈ query t obj found →
      c ∈ found ∨ (c ∈ allObjects t ∧ c.id ≠ obj.id ∧ collidesWith obj c = true) := by
  intro t
  induction t with
  | leaf s objects =>
    intro obj found c h
    exact queryScan_subset obj objects found c h
  | node s objects n0 n1 n2 n3 ih0 ih1 ih2 ih3 =>
    intro obj found c h
    rw [query_node] at h
    rcases queryScan_subset _ _ _ _ h with h1 | h1
    · rcases getIndex_cases s obj with hi | hi | hi | hi | hi <;>
        simp only [hi, Nodes.get] at h1
      · exact Or.inl (by simpa using h1)
      · rcases ih0 _ _ _ (by simpa using h1) with h2 | h2
        · exact Or.inl h2
        · exact Or.inr ⟨by simp [allObjects, h2.1], h2.2⟩
      · rcases ih1 _ _ _ (by simpa using h1) with h2 | h2
        · exact Or.inl h2
        · exact Or.inr ⟨by simp [allObjects, h2.1], h2.2⟩
      · rcases ih2 _ _ _ (by simpa using h1) with h2 | h2
        · exact Or.inl h2
        · exact Or.inr ⟨by simp [allObjects, h2.1], h2.2⟩
      · rcases ih3 _ _ _ (by simpa using h1) with h2 | h2
        · exact Or.inl h2
        · exact Or.inr ⟨by simp [allObjects, h2.1], h2.2⟩
    · exact Or.inr ⟨by simp [allObjects, h1.1], h1.2⟩

theorem getIndex_sides {s : Fields} {b : Circle} :
    (getIndex s b = 0 → b.x - b.radius > s.x + s.w / 2 ∧ b.y + b.radius < s.y + s.h / 2) ∧
    (getIndex s b = 1 → b.x + b.radius < s.x + s.w / 2 ∧ b.y + b.radius < s.y + s.h / 2) ∧
    (getIndex s b = 2 → b.x + b.radius < s.x + s.w / 2 ∧ b.y - b.radius > s.y + s.h / 2) ∧
    (getIndex s b = 3 → b.x - b.radius > s.x + s.w / 2 ∧ b.y - b.radius > s.y + s.h / 2) := by
  unfold getIndex
  simp only [decide_eq_true_eq]
  split_ifs <;> simp_all

theorem not_collides_of_sep_x {B C : Circle} {m : ℚ} (h1 : B.x + B.radius < m)
    (h2 : C.x - C.radius > m) : collidesWith B C = false ∧ collidesWith C B = false := by
  simp only [collidesWith, decide_eq_false_iff_not, not_and, not_le]
  constructor <;> intro h0 <;> nlinarith [sq_nonneg (B.y - C.y), sq_nonneg (C.y - B.y)]

theorem not_collides_of_sep_y {B C : Circle} {m : ℚ} (h1 : B.y + B.radius < m)
    (h2 : C.y - C.radius > m) : collidesWith B C = false ∧ collidesWith C B = false := by
  simp only [collidesWith, decide_eq_false_iff_not, not_and, not_le]
  constructor <;> intro h0 <;> nlinarith [sq_nonneg (B.x - C.x), sq_nonneg (C.x - B.x)]

/-- Two bodies that one node classifies into different quadrants do not
collide. -/
theorem not_collides_of_quadrants {s : Fields} {B C : Circle}
    (hB : getIndex s B ≠ -1) (hC : getIndex s C ≠ -1)
    (hne : getIndex s B ≠ getIndex s C) : collidesWith B C = false := by
  have sB := @getIndex_sides s B
  have sC := @getIndex_sides s C
  rcases getIndex_mem_range hB with h | h | h | h <;>
    rcases getIndex_mem_range hC with h' | h' | h' | h' <;>
    first
    | exact absurd (h.trans h'.symm) hne
    | exact (not_collides_of_sep_x
        (by first | exact (sB.2.1 h).1 | exact (sB.2.2.1 h).1)
        (by first | exact (sC.1 h').1 | exact (sC.2.2.2 h').1)).1
    | exact (not_collides_of_sep_x
        (by first | exact (sC.2.1 h').1 | exact (sC.2.2.1 h').1)
        (by first | exact (sB.1 h).1 | exact (sB.2.2.2 h).1)).2
    | exact (not_collides_of_sep_y
        (by first | exact (sB.1 h).2 | exact (sB.2.1 h).2)
        (by first | exact (sC.2.2.1 h').2 | exact (sC.2.2.2 h').2)).1
    | exact (not_collides_of_sep_y
        (by first | exact (sC.1 h').2 | exact (sC.2.1 h').2)
        (by first | exact (sB.2.2.1 h).2 | exact (sB.2.2.2 h).2)).2


theorem mem_allObjects_get {s : Fields} {objects : List Circle} {n0 n1 n2 n3 : Quadtree}
    {i : Int} {c : Circle} (h : c ∈ allObjects (Nodes.get (n0, n1, n2, n3) i)) :
    c ∈ allObjects (.node s objects n0 n1 n2 n3) := by
  unfold Nodes.get at h
  simp only [allObjects, List.mem_append]
  split_ifs at h <;> simp_all

theorem level_mem : ∀ (t : Quadtree) (b : Circle) (k : Nat),
    level t b = some k → b ∈ allObjects t := by
  intro t
  induction t with
  | leaf s objects =>
    intro b k h
    simp only [level] at h
    split_ifs at h with hb
    exact hb
  | node s objects n0 n1 n2 n3 ih0 ih1 ih2 ih3 =>
    intro b k h
    simp only [level] at h
    simp only [allObjects, List.mem_append]
    split_ifs at h with hb
    · exact Or.inl hb
    · cases h0 : level n0 b with
      | some k0 => exact Or.inr (Or.inl (ih0 _ _ h0))
      | none =>
        cases h1 : level n1 b with
        | some k1 => exact Or.inr (Or.inr (Or.inl (ih1 _ _ h1)))
        | none =>
          cases h2 : level n2 b with
          | some k2 => exact Or.inr (Or.inr (Or.inr (Or.inl (ih2 _ _ h2))))
          | none =>
            cases h3 : level n3 b with
            | some k3 => exact Or.inr (Or.inr (Or.inr (Or.inr (ih3 _ _ h3))))
            | none => simp [h0, h1, h2, h3] at h

theorem level_node_placed {s : Fields} {objects : List Circle} {n0 n1 n2 n3 : Quadtree}
    {b : Circle} {k : Nat} (hP : Placed (.node s objects n0 n1 n2 n3))
    (hb : b ∉ objects) (h : level (.node s objects n0 n1 n2 n3) b = some k) :
    getIndex s b ≠ -1 ∧ ∃ k1, k = k1 + 1 ∧
      level (Nodes.get (n0, n1, n2, n3) (getIndex s b)) b = some k1 := by
  obtain ⟨_, ⟨p0, _⟩, ⟨p1, _⟩, ⟨p2, _⟩, ⟨p3, _⟩⟩ := hP
  simp only [level, if_neg hb] at h
  cases h0 : level n0 b with
  | some k0 =>
    have hi := p0 b (level_mem _ _ _ h0)
    simp only [h0, Option.some.injEq] at h
    exact ⟨by simp [hi], k0, h.symm, by simpa [hi, Nodes.get] using h0⟩
  | none =>
    cases h1 : level n1 b with
    | some k1 =>
      have hi := p1 b (level_mem _ _ _ h1)
      simp only [h0, h1, Option.some.injEq] at h
      exact ⟨by simp [hi], k1, h.symm, by simpa [hi, Nodes.get] using h1⟩
    | none =>
      cases h2 : level n2 b with
      | some k2 =>
        have hi := p2 b (level_mem _ _ _ h2)
        simp only [h0, h1, h2, Option.some.injEq] at h
        exact ⟨by simp [hi], k2, h.symm, by simpa [hi, Nodes.get] using h2⟩
      | none =>
        cases h3 : level n3 b with
        | some k3 =>
          have hi := p3 b (level_mem _ _ _ h3)
          simp only [h0, h1, h2, h3, Option.some.injEq] at h
          exact ⟨by simp [hi], k3, h.symm, by simpa [hi, Nodes.get] using h3⟩
        | none => simp [h0, h1, h2, h3] at h

theorem query_mono : ∀ (t : Quadtree) (obj : Circle) (found : List Circle) (c : Circle),
    c ∈ found → c ∈ query t obj found := by
  intro t
  induction t with
  | leaf s objects => intro obj found c h; exact queryScan_mono _ _ _ _ h
  | node s objects n0 n1 n2 n3 ih0 ih1 ih2 ih3 =>
    intro obj found c h
    simp only [query]
    refine queryScan_mono _ _ _ _ ?_
    split_ifs
    · exact ih0 _ _ _ h
    · exact ih1 _ _ _ h
    · exact ih2 _ _ _ h
    · exact ih3 _ _ _ h
    · exact h

/-- In a tree whose residents are where classification puts them, the query
of `B` returns a colliding body `C` that is resident no deeper than `B`. -/
theorem query_finds (B C : Circle) (hid : C.id ≠ B.id) (hcol : collidesWith B C = true) :
    ∀ (t : Quadtree) (k j : Nat) (found : List Circle), Placed t →
      (∀ c ∈ allObjects t, c.id = C.id → c = C) →
      (∀ c ∈ found, c.id = C.id → c = C) →
      level t B = some k → level t C = some j → j ≤ k → C ∈ query t B found := by
  intro t
  induction t with
  | leaf s objects =>
    intro k j found _ hall hf _ hj _
    simp only [level] at hj
    split_ifs at hj with hC
    exact queryScan_mem B C hid hcol objects found hC hall hf
  | node s objects n0 n1 n2 n3 ih0 ih1 ih2 ih3 =>
    intro k j found hP hall hf hk hj hjk
    rw [query_node]
    by_cases hCo : C ∈ objects
    · refine queryScan_mem B C hid hcol objects _ hCo
        (fun c hc => hall c (by simp [allObjects, hc])) ?_
      intro c hc hcid
      split_ifs at hc
      · exact hf c hc hcid
      · rcases query_subset _ _ _ _ hc with h | h
        · exact hf c h hcid
        · exact hall c (mem_allObjects_get h.1) hcid
    · obtain ⟨hiC, j1, hj1, hlC⟩ := level_node_placed hP hCo hj
      have hBo : B ∉ objects := by
        intro hB
        simp only [level, if_pos hB, Option.some.injEq] at hk
        omega
      obtain ⟨hiB, k1, hk1, hlB⟩ := level_node_placed hP hBo hk
      have hi : getIndex s B = getIndex s C := by
        by_contra hne
        have := not_collides_of_quadrants hiB hiC hne
        rw [hcol] at this
        exact absurd this (by simp)
      rw [if_neg hiB]
      refine queryScan_mono _ _ _ _ ?_
      have hr := getIndex_mem_range hiB
      have ihAll : Nodes.All (fun _ c => ∀ (k j : Nat) (found : List Circle), Placed c →
          (∀ c1 ∈ allObjects c, c1.id = C.id → c1 = C) →
          (∀ c1 ∈ found, c1.id = C.id → c1 = C) →
          level c B = some k → level c C = some j → j ≤ k → C ∈ query c B found)
          (n0, n1, n2, n3) := ⟨ih0, ih1, ih2, ih3⟩
      have hn : Nodes.All (fun i c => (∀ b ∈ allObjects c, getIndex s b = i) ∧ Placed c)
          (n0, n1, n2, n3) := hP.2
      refine ihAll.get hr k1 j1 found (hn.get hr).2
        (fun c hc => hall c (mem_allObjects_get hc)) hf hlB (by rw [hi]; exact hlC) (by omega)

/-- C1, as amended. In every tree obtained by inserting distinct bodies
into an empty root, for two bodies `B` and `C` of the tree whose circles
overlap, `query(B, empty set)` contains `C` when `C` is resident no deeper
in the tree than `B`. -/
theorem query_finds_no_deeper (s : Fields) (bs : List Circle) (fuel : Nat) (t : Quadtree)
    (B C : Circle) (k j : Nat) (hid : (bs.map Circle.id).Nodup)
    (ht : insertAll fuel (.leaf s []) bs = some t) (hB : B ∈ bs) (hC : C ∈ bs)
    (hBC : B ≠ C) (hcol : collidesWith B C = true)
    (hk : level t B = some k) (hj : level t C = some j) (hjk : j ≤ k) :
    C ∈ query t B [] := by
  obtain ⟨_, hp, hpl⟩ := insertAll_spec fuel bs _ _ ht
  have hinj : ∀ c ∈ bs, ∀ d ∈ bs, c.id = d.id → c = d :=
    fun c hc d hd h => List.inj_on_of_nodup_map hid hc hd h
  refine query_finds B C (fun h => hBC (hinj C hC B hB h).symm) hcol t k j [] (hpl trivial)
    ?_ (by simp) hk hj hjk
  intro c hc hcid
  have hcb : c ∈ bs := by simpa [allObjects] using hp.subset hc
  exact hinj c hcb C hC hcid

/-- C1 amended, at the five bodies `seamBodies`: the body at (46, 46) is
resident one level below the root, the body at (50, 50) at the root, and
the query of the former returns the latter. -/
theorem query_finds_no_deeper_witness :
    (seamBodies.map Circle.id).Nodup ∧
    (∃ t, insertAll 2 (.leaf ⟨0, 0, 100, 100, 0, 4, 4⟩ []) seamBodies = some t ∧
      level t ⟨2, 46, 46, 3⟩ = some 1 ∧ level t ⟨1, 50, 50, 3⟩ = some 0 ∧
      collidesWith ⟨2, 46, 46, 3⟩ ⟨1, 50, 50, 3⟩ = true ∧
      (⟨1, 50, 50, 3⟩ : Circle) ∈ query t ⟨2, 46, 46, 3⟩ []) := by
  refine ⟨by decide, _, (by decide! : insertAll 2 (.leaf ⟨0, 0, 100, 100, 0, 4, 4⟩ [])
    seamBodies = some (.node ⟨0, 0, 100, 100, 0, 4, 4⟩ [⟨1, 50, 50, 3⟩]
      (.leaf ⟨50, 0, 50, 50, 0, 4, 4⟩ [⟨4, 80, 20, 3⟩])
      (.leaf ⟨0, 0, 50, 50, 0, 4, 4⟩ [⟨2, 46, 46, 3⟩, ⟨3, 20, 20, 3⟩])
      (.leaf ⟨0, 50, 50, 50, 0, 4, 4⟩ [])
      (.leaf ⟨50, 50, 50, 50, 0, 4, 4⟩ [⟨5, 80, 80, 3⟩]))),
    by decide!, by decide!, by decide!, ?_⟩
  exact query_finds_no_deeper ⟨0, 0, 100, 100, 0, 4, 4⟩ seamBodies 2 _ ⟨2, 46, 46, 3⟩
    ⟨1, 50, 50, 3⟩ 1 0 (by decide) (by decide!) (by decide!) (by decide!) (by decide!)
    (by decide!) (by decide!) (by decide!) (by decide)

/-- C1, as stated, fails: in the tree of the five bodies `seamBodies` the
body at (50, 50) is ambiguous at the root, the body at (46, 46) overlaps it
and is resident in the upper left child, and the query of the first does
not return the second. -/
theorem query_false_negative :
    ¬ ∀ (s : Fields) (bs : List Circle) (fuel : Nat) (t : Quadtree) (B C : Circle),
      (bs.map Circle.id).Nodup → (∀ b ∈ bs, Inside s b ∧ 0 < b.radius) →
      insertAll fuel (.leaf s []) bs = some t → B ∈ bs → C ∈ bs → B ≠ C →
      collidesWith B C = true → C ∈ query t B [] := by
  intro h
  have := h ⟨0, 0, 100, 100, 0, 4, 4⟩ seamBodies 2 _ ⟨1, 50, 50, 3⟩ ⟨2, 46, 46, 3⟩
    (by decide) (by decide!) (by decide! : insertAll 2 (.leaf ⟨0, 0, 100, 100, 0, 4, 4⟩ [])
    seamBodies = some (.node ⟨0, 0, 100, 100, 0, 4, 4⟩ [⟨1, 50, 50, 3⟩]
      (.leaf ⟨50, 0, 50, 50, 0, 4, 4⟩ [⟨4, 80, 20, 3⟩])
      (.leaf ⟨0, 0, 50, 50, 0, 4, 4⟩ [⟨2, 46, 46, 3⟩, ⟨3, 20, 20, 3⟩])
      (.leaf ⟨0, 50, 50, 50, 0, 4, 4⟩ [])
      (.leaf ⟨50, 50, 50, 50, 0, 4, 4⟩ [⟨5, 80, 80, 3⟩]))) (by decide!) (by decide!)
    (by decide!) (by decide!)
  revert this
  decide!


theorem home_of_placed : ∀ (t : Quadtree), Placed t →
    ∀ b ∈ allObjects t, b ∈ homeObjects t b := by
  intro t
  induction t with
  | leaf s objects => intro _ b hb; exact hb
  | node s objects n0 n1 n2 n3 ih0 ih1 ih2 ih3 =>
    intro hP b hb
    obtain ⟨po, ⟨p0, q0⟩, ⟨p1, q1⟩, ⟨p2, q2⟩, ⟨p3, q3⟩⟩ := hP
    simp only [allObjects, List.mem_append] at hb
    rcases hb with hb | hb | hb | hb | hb
    · simpa [homeObjects, po b hb] using hb
    · simpa [homeObjects, p0 b hb] using ih0 q0 b hb
    · simpa [homeObjects, p1 b hb] using ih1 q1 b hb
    · simpa [homeObjects, p2 b hb] using ih2 q2 b hb
    · simpa [homeObjects, p3 b hb] using ih3 q3 b hb

/-- C4. In every tree built by inserting bodies into an empty root, each
body is resident at the first node on its classification path that has no
children or classifies it as ambiguous; the residents of a node with
children are ambiguous there and the residents below child `i` are
classified `i` (`Placed`).  In the plane 100 x 100 the bodies (50, 49) and
(50, 51) of radius 3 stay at the root, also when three more bodies make the
root split, and the query of each returns the other. -/
theorem insert_placement (s : Fields) (bs : List Circle) (fuel : Nat) (t : Quadtree)
    (ht : insertAll fuel (.leaf s []) bs = some t) :
    (∀ b ∈ bs, b ∈ homeObjects t b) ∧ Placed t ∧
    (insertAll 1 root100 straddlers = some (.leaf ⟨0, 0, 100, 100, 0, 4, 4⟩ straddlers) ∧
      query (.leaf ⟨0, 0, 100, 100, 0, 4, 4⟩ straddlers) ⟨1, 50, 49, 3⟩ [] = [⟨2, 50, 51, 3⟩] ∧
      query (.leaf ⟨0, 0, 100, 100, 0, 4, 4⟩ straddlers) ⟨2, 50, 51, 3⟩ [] = [⟨1, 50, 49, 3⟩]) ∧
    (∃ t5, insertAll 2 root100 straddlersAndThree = some t5 ∧ t5.nodes.isSome = true ∧
      t5.objects = straddlers ∧
      query t5 ⟨1, 50, 49, 3⟩ [] = [⟨2, 50, 51, 3⟩] ∧
      query t5 ⟨2, 50, 51, 3⟩ [] = [⟨1, 50, 49, 3⟩]) := by
  obtain ⟨_, hp, hpl⟩ := insertAll_spec fuel bs _ _ ht
  have hP : Placed t := hpl trivial
  refine ⟨?_, hP, by decide!, ?_⟩
  · intro b hb
    exact home_of_placed t hP b (hp.symm.subset (by simpa [allObjects] using hb))
  · exact ⟨_, (by decide! : insertAll 2 root100 straddlersAndThree =
      some (.node ⟨0, 0, 100, 100, 0, 4, 4⟩ straddlers
        (.leaf ⟨50, 0, 50, 50, 0, 4, 4⟩ [⟨4, 80, 20, 3⟩])
        (.leaf ⟨0, 0, 50, 50, 0, 4, 4⟩ [⟨3, 20, 20, 3⟩])
        (.leaf ⟨0, 50, 50, 50, 0, 4, 4⟩ [])
        (.leaf ⟨50, 50, 50, 50, 0, 4, 4⟩ [⟨5, 80, 80, 3⟩]))),
      by decide!, by decide!, by decide!, by decide!⟩

/-- C4 at the two straddlers and three more bodies in the plane 100 x 100. -/
theorem insert_placement_witness :
    ∃ t, insertAll 2 (.leaf ⟨0, 0, 100, 100, 0, 4, 4⟩ []) straddlersAndThree = some t ∧
      (∀ b ∈ straddlersAndThree, b ∈ homeObjects t b) ∧ Placed t :=
  ⟨_, (by decide! : insertAll 2 (.leaf ⟨0, 0, 100, 100, 0, 4, 4⟩ []) straddlersAndThree =
      some (.node ⟨0, 0, 100, 100, 0, 4, 4⟩ straddlers
        (.leaf ⟨50, 0, 50, 50, 0, 4, 4⟩ [⟨4, 80, 20, 3⟩])
        (.leaf ⟨0, 0, 50, 50, 0, 4, 4⟩ [⟨3, 20, 20, 3⟩])
        (.leaf ⟨0, 50, 50, 50, 0, 4, 4⟩ [])
        (.leaf ⟨50, 50, 50, 50, 0, 4, 4⟩ [⟨5, 80, 80, 3⟩]))),
    (insert_placement ⟨0, 0, 100, 100, 0, 4, 4⟩ straddlersAndThree 2 _ (by decide!)).1,
    (insert_placement ⟨0, 0, 100, 100, 0, 4, 4⟩ straddlersAndThree 2 _ (by decide!)).2.1⟩

theorem findIdx_none {objects : List Circle} {i : Nat} (h : ∀ o ∈ objects, o.id ≠ i) :
    objects.findIdx? (fun o => o.id == i) = none := by
  induction objects with
  | nil => rfl
  | cons o rest ih =>
    have ho := h o (List.mem_cons_self _ _)
    simp only [List.findIdx?_cons, beq_iff_eq, ho, if_false]
    simp [ih (fun c hc => h c (List.mem_cons_of_mem _ hc)), ho]

/-- C8. For every tree and every body that is in no resident list of the
subtree, `remove` returns the tree unchanged. -/
theorem remove_absent : ∀ (t : Quadtree) (obj : Circle),
    (∀ o ∈ allObjects t, o.id ≠ obj.id) → remove t obj = t := by
  intro t
  induction t with
  | leaf s objects =>
    intro obj h
    have ho : ∀ o ∈ objects, o.id ≠ obj.id := h
    simp only [remove, findIdx_none ho]
  | node s objects n0 n1 n2 n3 ih0 ih1 ih2 ih3 =>
    intro obj h
    simp only [allObjects, List.mem_append] at h
    have ho : ∀ o ∈ objects, o.id ≠ obj.id := fun o ho => h o (Or.inl ho)
    simp only [remove, findIdx_none ho]
    rw [ih0 obj (fun o ho => h o (Or.inr (Or.inl ho))),
      ih1 obj (fun o ho => h o (Or.inr (Or.inr (Or.inl ho)))),
      ih2 obj (fun o ho => h o (Or.inr (Or.inr (Or.inr (Or.inl ho))))),
      ih3 obj (fun o ho => h o (Or.inr (Or.inr (Or.inr (Or.inr ho)))))]
    split_ifs <;> rfl


/-- C8 at the tree of `seamBodies` and a body with a reference that is not
in the tree. -/
theorem remove_absent_witness :
    (∀ o ∈ allObjects seamTree, o.id ≠ (⟨9, 46, 46, 3⟩ : Circle).id) ∧
      remove seamTree ⟨9, 46, 46, 3⟩ = seamTree :=
  ⟨by decide, remove_absent seamTree ⟨9, 46, 46, 3⟩ (by decide)⟩

theorem findIdx_some_erase : ∀ (objects : List Circle) (i k : Nat),
    (objects.map Circle.id).Nodup →
    objects.findIdx? (fun o => o.id == i) = some k →
    objects.eraseIdx k = objects.filter (fun o => o.id != i) ∧ ∃ o ∈ objects, o.id = i := by
  intro objects
  induction objects with
  | nil => intro i k _ h; simp at h
  | cons o rest ih =>
    intro i k hnd h
    simp only [List.map_cons, List.nodup_cons] at hnd
    rw [List.findIdx?_cons] at h
    by_cases ho : o.id = i
    · simp only [ho, beq_self_eq_true, if_true, Option.some.injEq] at h
      subst h
      refine ⟨?_, o, List.mem_cons_self _ _, ho⟩
      have hrest : ∀ c ∈ rest, c.id ≠ i := by
        intro c hc hci
        exact hnd.1 (List.mem_map.2 ⟨c, hc, hci.trans ho.symm⟩)
      simp only [List.eraseIdx_cons_zero, List.filter_cons, ho, bne_self_eq_false]
      symm
      simpa [List.filter_eq_self] using hrest
    · have hb : (o.id == i) = false := by simpa using ho
      simp only [hb, Bool.false_eq_true, if_false, List.findIdx?_succ, Option.map_eq_some'] at h
      obtain ⟨k1, hk1, rfl⟩ := h
      obtain ⟨he, c, hc, hci⟩ := ih i k1 hnd.2 hk1
      refine ⟨?_, c, List.mem_cons_of_mem _ hc, hci⟩
      simp [List.eraseIdx_cons_succ, List.filter_cons, ho, he]

theorem mapObjects_filter_self (i : Nat) : ∀ (t : Quadtree),
    (∀ o ∈ allObjects t, o.id ≠ i) →
    mapObjects (List.filter (fun o => o.id != i)) t = t := by
  intro t
  induction t with
  | leaf s objects =>
    intro h
    have ho : ∀ o ∈ objects, o.id ≠ i := h
    simp only [mapObjects, Quadtree.leaf.injEq, true_and]
    simpa [List.filter_eq_self] using ho
  | node s objects n0 n1 n2 n3 ih0 ih1 ih2 ih3 =>
    intro h
    simp only [allObjects, List.mem_append] at h
    have ho : ∀ o ∈ objects, o.id ≠ i := fun o ho => h o (Or.inl ho)
    simp only [mapObjects]
    rw [ih0 (fun o ho => h o (Or.inr (Or.inl ho))),
      ih1 (fun o ho => h o (Or.inr (Or.inr (Or.inl ho)))),
      ih2 (fun o ho => h o (Or.inr (Or.inr (Or.inr (Or.inl ho))))),
      ih3 (fun o ho => h o (Or.inr (Or.inr (Or.inr (Or.inr ho)))))]
    simp only [Quadtree.node.injEq, true_and, and_true]
    simpa [List.filter_eq_self] using ho

theorem allObjects_mapObjects_filter (p : Circle → Bool) : ∀ (t : Quadtree),
    allObjects (mapObjects (List.filter p) t) = (allObjects t).filter p := by
  intro t
  induction t with
  | leaf s objects => rfl
  | node s objects n0 n1 n2 n3 ih0 ih1 ih2 ih3 =>
    simp only [mapObjects, allObjects, List.filter_append, ih0, ih1, ih2, ih3]

theorem remove_eq_filter (B : Circle) : ∀ (t : Quadtree), Placed t →
    ((allObjects t).map Circle.id).Nodup →
    (∀ c ∈ allObjects t, c.id = B.id → c = B) →
    remove t B = mapObjects (List.filter (fun o => o.id != B.id)) t := by
  intro t
  induction t with
  | leaf s objects =>
    intro _ hnd hall
    have hnd1 : (objects.map Circle.id).Nodup := hnd
    simp only [remove, mapObjects]
    cases hfi : objects.findIdx? (fun o => o.id == B.id) with
    | none =>
      have ho : ∀ o ∈ objects, o.id ≠ B.id := by
        simpa using List.findIdx?_eq_none_iff.1 hfi
      simp only [Quadtree.leaf.injEq, true_and]
      symm
      simpa [List.filter_eq_self] using ho
    | some k =>
      simp only [(findIdx_some_erase objects B.id k hnd1 hfi).1]
  | node s objects n0 n1 n2 n3 ih0 ih1 ih2 ih3 =>
    intro hP hnd hall
    obtain ⟨po, ⟨p0, q0⟩, ⟨p1, q1⟩, ⟨p2, q2⟩, ⟨p3, q3⟩⟩ := hP
    simp only [allObjects, List.map_append, List.nodup_append] at hnd
    obtain ⟨hndo, ⟨hnd0, ⟨hnd1, ⟨hnd2, hnd3, _⟩, _⟩, _⟩, _⟩ := hnd
    simp only [allObjects, List.mem_append] at hall
    have hfree : ∀ (j : Int) (c : Quadtree), (∀ b ∈ allObjects c, getIndex s b = j) →
        (∀ b ∈ allObjects c, b.id = B.id → b = B) → getIndex s B ≠ j →
        mapObjects (List.filter (fun o => o.id != B.id)) c = c := by
      intro j c hj hc hne
      refine mapObjects_filter_self B.id c ?_
      intro o ho hid
      have := hc o ho hid
      subst this
      exact hne (hj _ ho)
    have a0 : ∀ b ∈ allObjects n0, b.id = B.id → b = B :=
      fun b hb => hall b (Or.inr (Or.inl hb))
    have a1 : ∀ b ∈ allObjects n1, b.id = B.id → b = B :=
      fun b hb => hall b (Or.inr (Or.inr (Or.inl hb)))
    have a2 : ∀ b ∈ allObjects n2, b.id = B.id → b = B :=
      fun b hb => hall b (Or.inr (Or.inr (Or.inr (Or.inl hb))))
    have a3 : ∀ b ∈ allObjects n3, b.id = B.id → b = B :=
      fun b hb => hall b (Or.inr (Or.inr (Or.inr (Or.inr hb))))
    simp only [remove, mapObjects]
    cases hfi : objects.findIdx? (fun o => o.id == B.id) with
    | none =>
      have ho : ∀ o ∈ objects, o.id ≠ B.id := by
        simpa using List.findIdx?_eq_none_iff.1 hfi
      have hfo : objects.filter (fun o => o.id != B.id) = objects := by
        simpa [List.filter_eq_self] using ho
      simp only [hfo]
      rcases getIndex_cases s B with h | h | h | h | h
      · simp [h, hfree 0 n0 p0 a0 (by simp [h]), hfree 1 n1 p1 a1 (by simp [h]),
          hfree 2 n2 p2 a2 (by simp [h]), hfree 3 n3 p3 a3 (by simp [h])]
      · simp [h, ih0 q0 hnd0 a0, hfree 1 n1 p1 a1 (by simp [h]),
          hfree 2 n2 p2 a2 (by simp [h]), hfree 3 n3 p3 a3 (by simp [h])]
      · simp [h, ih1 q1 hnd1 a1, hfree 0 n0 p0 a0 (by simp [h]),
          hfree 2 n2 p2 a2 (by simp [h]), hfree 3 n3 p3 a3 (by simp [h])]
      · simp [h, ih2 q2 hnd2 a2, hfree 0 n0 p0 a0 (by simp [h]),
          hfree 1 n1 p1 a1 (by simp [h]), hfree 3 n3 p3 a3 (by simp [h])]
      · simp [h, ih3 q3 hnd3 a3, hfree 0 n0 p0 a0 (by simp [h]),
          hfree 1 n1 p1 a1 (by simp [h]), hfree 2 n2 p2 a2 (by simp [h])]
    | some k =>
      obtain ⟨he, o, ho, hoid⟩ := findIdx_some_erase objects B.id k hndo hfi
      have hoB : o = B := hall o (Or.inl ho) hoid
      subst hoB
      have h := po o ho
      simp [he, hfree 0 n0 p0 a0 (by simp [h]), hfree 1 n1 p1 a1 (by simp [h]),
          hfree 2 n2 p2 a2 (by simp [h]), hfree 3 n3 p3 a3 (by simp [h])]

/-- C7. In a tree built by inserting distinct bodies into an empty root,
`remove(B)` of a body `B` of the tree deletes `B` from every resident list
and changes nothing else: every resident list keeps its other bodies in
their order, and the nodes and their fields are the same. -/
theorem remove_present (s : Fields) (bs : List Circle) (fuel : Nat) (t : Quadtree)
    (B : Circle) (hid : (bs.map Circle.id).Nodup)
    (ht : insertAll fuel (.leaf s []) bs = some t) (hB : B ∈ bs) :
    remove t B = mapObjects (List.filter (fun o => o.id != B.id)) t ∧
    B ∉ allObjects (remove t B) ∧
    (∀ c ∈ bs, c ≠ B → c ∈ allObjects (remove t B)) ∧
    (∀ c ∈ allObjects (remove t B), c ∈ bs) := by
  obtain ⟨_, hp, hpl⟩ := insertAll_spec fuel bs _ _ ht
  have hp1 : (allObjects t).Perm bs := by simpa [allObjects] using hp
  have hinj : ∀ c ∈ bs, ∀ d ∈ bs, c.id = d.id → c = d :=
    fun c hc d hd h => List.inj_on_of_nodup_map hid hc hd h
  have hrem := remove_eq_filter B t (hpl trivial)
    ((hp1.map Circle.id).nodup_iff.2 hid)
    (fun c hc hcid => hinj c (hp1.subset hc) B hB hcid)
  refine ⟨hrem, ?_, ?_, ?_⟩
  · rw [hrem, allObjects_mapObjects_filter]
    simp
  · intro c hc hne
    rw [hrem, allObjects_mapObjects_filter]
    refine List.mem_filter.2 ⟨hp1.symm.subset hc, ?_⟩
    simpa using fun h => hne (hinj c hc B hB h)
  · intro c hc
    rw [hrem, allObjects_mapObjects_filter] at hc
    exact hp1.subset (List.mem_filter.1 hc).1

/-- C7 at the tree of `seamBodies`, removing the body at (46, 46). -/
theorem remove_present_witness :
    (seamBodies.map Circle.id).Nodup ∧
    insertAll 2 (.leaf ⟨0, 0, 100, 100, 0, 4, 4⟩ []) seamBodies = some seamTree ∧
    (⟨2, 46, 46, 3⟩ : Circle) ∈ seamBodies ∧
    remove seamTree ⟨2, 46, 46, 3⟩ =
      mapObjects (List.filter (fun o => o.id != 2)) seamTree :=
  ⟨by decide, by decide!, by decide!,
    (remove_present ⟨0, 0, 100, 100, 0, 4, 4⟩ seamBodies 2 seamTree ⟨2, 46, 46, 3⟩
      (by decide) (by decide!) (by decide!)).1⟩


theorem clear_eq (t : Quadtree) : clear t = .leaf t.fields [] := by
  cases t <;> rfl

theorem contains_iff (s : Fields) (obj : Circle) :
    contains s obj = true ↔
      s.x ≤ obj.x ∧ s.y ≤ obj.y ∧ obj.x + obj.radius ≤ s.x + s.w ∧
        obj.y + obj.radius ≤ s.y + s.h := by
  simp [contains, and_assoc]

/-- C10, the failing input: the body at (0, 0) of radius 1 and the region
(0, 0, 100, 100).  `contains` is true although the circle reaches to -1 on
both axes; `contains` compares the centre, not the extent, with the left
and top edges. -/
theorem contains_ignores_radius_left_top :
    contains ⟨0, 0, 100, 100, 0, 4, 4⟩ ⟨1, 0, 0, 1⟩ = true ∧
    ¬ Inside ⟨0, 0, 100, 100, 0, 4, 4⟩ ⟨1, 0, 0, 1⟩ ∧
    (∀ (s : Fields) (obj : Circle), contains s obj = true ↔
      s.x ≤ obj.x ∧ s.y ≤ obj.y ∧ obj.x + obj.radius ≤ s.x + s.w ∧
        obj.y + obj.radius ≤ s.y + s.h) :=
  ⟨by decide!, by decide!, contains_iff⟩

/-- C6, the failing input: `split` gives every child the depth 0, whatever
the depth of the parent, so the test `depth < maxDepth` of `insert` never
fails below a root with `maxDepth` above 0.  Five bodies of radius 1 at
(10, 10) inserted into `new DynamicQuadtree(0, 0, 100, 100)` give a tree
with nodes five levels below the root. -/
theorem split_children_depth_zero :
    (∀ s : Fields, (split s).1.fields.depth = 0 ∧ (split s).2.1.fields.depth = 0 ∧
      (split s).2.2.1.fields.depth = 0 ∧ (split s).2.2.2.fields.depth = 0) ∧
    root100.fields.depth = 0 ∧ root100.fields.maxDepth = 4 ∧
    (insertAll 6 root100 fiveAt10).map height = some 5 :=
  ⟨fun _ => ⟨rfl, rfl, rfl, rfl⟩, rfl, rfl, by decide!⟩

/-- C3, the failing input: the tree of `driftBodies`, then body 1 moves from
(45, 45) to (52, 45), inside the plane.  `updateAll` reinserts it into the
upper left child, the node it was resident at, whose region (0, 0, 50, 50)
does not contain it. -/
theorem updateAll_keeps_body_outside_its_node :
    insertAll 2 root100 driftBodies = some driftTree ∧
    (∀ b ∈ allObjects (mapObjects (List.map driftMove) driftTree),
      Inside root100.fields b) ∧
    updateAll 8 (mapObjects (List.map driftMove) driftTree) =
      some (.node ⟨0, 0, 100, 100, 0, 4, 4⟩ []
        (.leaf ⟨50, 0, 50, 50, 0, 4, 4⟩ [])
        (.leaf ⟨0, 0, 50, 50, 0, 4, 4⟩
          [⟨2, 20, 20, 1⟩, ⟨4, 40, 40, 1⟩, ⟨3, 30, 30, 1⟩, ⟨1, 52, 45, 1⟩])
        (.leaf ⟨0, 50, 50, 50, 0, 4, 4⟩ [])
        (.leaf ⟨50, 50, 50, 50, 0, 4, 4⟩ [⟨5, 60, 60, 1⟩])) ∧
    contains ⟨0, 0, 50, 50, 0, 4, 4⟩ ⟨1, 52, 45, 1⟩ = false ∧
    (updateAll 8 (mapObjects (List.map driftMove) driftTree)).map residentsContained =
      some false :=
  ⟨by decide!, by decide!, by decide!, by decide!, by decide!⟩

end Ball1

namespace BallSelf

theorem planeTree_clear_eq (t : PlaneTree) :
    clear t = .leaf t.plane t.maxObjects [] := by
  cases t <;> rfl

end BallSelf

namespace Ball1

/-- C9. After `clear()` a node of `弹球1.js` and a node of `弹球self.js` has an
empty resident list and no children, and its region and settings are the
same; `clear` is idempotent; the cleared node is the node its constructor
gives for the same arguments, so inserting a sequence of bodies after
`clear()` gives what inserting it into the fresh node gives; in particular
a tree grown from `new DynamicQuadtree(x, y, w, h)` or from
`new PlaneTree(plane)` clears to that root. -/
theorem clear_spec :
    (∀ t : Quadtree, (clear t).objects = [] ∧ (clear t).nodes = none ∧
      (clear t).fields = t.fields ∧ clear (clear t) = clear t ∧
      clear t = .leaf t.fields [] ∧
      ∀ fuel bs, insertAll fuel (clear t) bs = insertAll fuel (.leaf t.fields []) bs) ∧
    (∀ (x y w h : ℚ) (fuel : Nat) (bs : List Circle) (t : Quadtree),
      insertAll fuel (DynamicQuadtree.new x y w h) bs = some t →
      clear t = DynamicQuadtree.new x y w h) ∧
    (∀ t : BallSelf.PlaneTree, (BallSelf.clear t).objects = [] ∧
      (BallSelf.clear t).nodes = none ∧ (BallSelf.clear t).plane = t.plane ∧
      (BallSelf.clear t).maxObjects = t.maxObjects ∧
      BallSelf.clear (BallSelf.clear t) = BallSelf.clear t ∧
      BallSelf.clear t = .leaf t.plane t.maxObjects [] ∧
      ∀ fuel bs, BallSelf.insertAll fuel (BallSelf.clear t) bs =
        BallSelf.insertAll fuel (.leaf t.plane t.maxObjects []) bs) := by
  refine ⟨?_, ?_, ?_⟩
  · intro t
    rw [clear_eq]
    exact ⟨rfl, rfl, rfl, rfl, rfl, fun _ _ => rfl⟩
  · intro x y w h fuel bs t ht
    rw [clear_eq, (insertAll_spec fuel bs _ _ ht).1]
    rfl
  · intro t
    rw [BallSelf.planeTree_clear_eq]
    exact ⟨rfl, rfl, rfl, rfl, rfl, rfl, fun _ _ => rfl⟩

/-- C9 at the tree of `seamBodies` and at a plane tree with children. -/
theorem clear_spec_witness :
    insertAll 2 (DynamicQuadtree.new 0 0 100 100) seamBodies = some seamTree ∧
    clear seamTree = DynamicQuadtree.new 0 0 100 100 ∧
    BallSelf.clear BallSelf.sampleTree = BallSelf.PlaneTree.new ⟨0, 0, 100, 100⟩ :=
  ⟨by decide!, clear_spec.2.1 0 0 100 100 2 seamBodies seamTree (by decide!),
    (clear_spec.2.2 BallSelf.sampleTree).2.2.2.2.2.1⟩


theorem collidesWith_comm (B C : Circle) : collidesWith B C = collidesWith C B := by
  unfold collidesWith
  simp only
  rw [decide_eq_decide]
  have h1 : (B.x - C.x) ^ 2 + (B.y - C.y) ^ 2 = (C.x - B.x) ^ 2 + (C.y - B.y) ^ 2 := by ring
  rw [h1, add_comm B.radius C.radius]

theorem level_of_mem : ∀ (t : Quadtree) (b : Circle), b ∈ allObjects t →
    ∃ k, level t b = some k := by
  intro t
  induction t with
  | leaf s objects =>
    intro b hb
    have hb1 : b ∈ objects := hb
    exact ⟨0, by simp [level, hb1]⟩
  | node s objects n0 n1 n2 n3 ih0 ih1 ih2 ih3 =>
    intro b hb
    simp only [allObjects, List.mem_append] at hb
    simp only [level]
    by_cases hbo : b ∈ objects
    · exact ⟨0, by simp [hbo]⟩
    · simp only [if_neg hbo]
      cases h0 : level n0 b with
      | some k0 => exact ⟨k0 + 1, rfl⟩
      | none =>
        cases h1 : level n1 b with
        | some k1 => exact ⟨k1 + 1, rfl⟩
        | none =>
          cases h2 : level n2 b with
          | some k2 => exact ⟨k2 + 1, rfl⟩
          | none =>
            cases h3 : level n3 b with
            | some k3 => exact ⟨k3 + 1, rfl⟩
            | none =>
              exfalso
              rcases hb with hb | hb | hb | hb | hb
              · exact hbo hb
              · obtain ⟨k, hk⟩ := ih0 b hb; simp [h0] at hk
              · obtain ⟨k, hk⟩ := ih1 b hb; simp [h1] at hk
              · obtain ⟨k, hk⟩ := ih2 b hb; simp [h2] at hk
              · obtain ⟨k, hk⟩ := ih3 b hb; simp [h3] at hk

/-- C17. In every tree built by inserting distinct bodies into an empty
root, two different bodies that collide find each other from at least one
side: `C` is in `query(B, empty set)` or `B` is in `query(C, empty set)`; and
every element of `query(B, empty set)` is an inserted body other than `B`
that collides with `B`. -/
theorem pair_found_from_one_side (s : Fields) (bs : List Circle) (fuel : Nat)
    (t : Quadtree) (B C : Circle) (hid : (bs.map Circle.id).Nodup)
    (ht : insertAll fuel (.leaf s []) bs = some t) (hB : B ∈ bs) (hC : C ∈ bs)
    (hBC : B ≠ C) (hcol : collidesWith B C = true) :
    (C ∈ query t B [] ∨ B ∈ query t C []) ∧
    (∀ D ∈ query t B [], D ∈ bs ∧ D ≠ B ∧ collidesWith B D = true) := by
  obtain ⟨_, hp, hpl⟩ := insertAll_spec fuel bs _ _ ht
  have hp1 : (allObjects t).Perm bs := by simpa [allObjects] using hp
  have hP : Placed t := hpl trivial
  have hinj : ∀ c ∈ bs, ∀ d ∈ bs, c.id = d.id → c = d :=
    fun c hc d hd h => List.inj_on_of_nodup_map hid hc hd h
  have hidne : C.id ≠ B.id := fun h => hBC (hinj C hC B hB h).symm
  obtain ⟨k, hk⟩ := level_of_mem t B (hp1.symm.subset hB)
  obtain ⟨j, hj⟩ := level_of_mem t C (hp1.symm.subset hC)
  refine ⟨?_, ?_⟩
  · rcases Nat.le_total j k with hjk | hkj
    · exact Or.inl (query_finds B C hidne hcol t k j [] hP
        (fun c hc hcid => hinj c (hp1.subset hc) C hC hcid) (by simp) hk hj hjk)
    · exact Or.inr (query_finds C B hidne.symm (by rw [collidesWith_comm]; exact hcol) t j k []
        hP (fun c hc hcid => hinj c (hp1.subset hc) B hB hcid) (by simp) hj hk hkj)
  · intro D hD
    rcases query_subset t B [] D hD with h | h
    · simp at h
    · exact ⟨hp1.subset h.1, fun hDB => h.2.1 (by rw [hDB]), h.2.2⟩

/-- C17 at the five bodies `seamBodies`: the bodies at (50, 50) and
(46, 46) collide, and the query of the second returns the first. -/
theorem pair_found_from_one_side_witness :
    (seamBodies.map Circle.id).Nodup ∧
    insertAll 2 (.leaf ⟨0, 0, 100, 100, 0, 4, 4⟩ []) seamBodies = some seamTree ∧
    collidesWith ⟨1, 50, 50, 3⟩ ⟨2, 46, 46, 3⟩ = true ∧
    (((⟨2, 46, 46, 3⟩ : Circle) ∈ query seamTree ⟨1, 50, 50, 3⟩ [] ∨
      (⟨1, 50, 50, 3⟩ : Circle) ∈ query seamTree ⟨2, 46, 46, 3⟩ []) ∧
    (∀ D ∈ query seamTree ⟨1, 50, 50, 3⟩ [],
      D ∈ seamBodies ∧ D ≠ ⟨1, 50, 50, 3⟩ ∧ collidesWith ⟨1, 50, 50, 3⟩ D = true)) :=
  ⟨by decide, by decide!, by decide!,
    pair_found_from_one_side ⟨0, 0, 100, 100, 0, 4, 4⟩ seamBodies 2 seamTree
      ⟨1, 50, 50, 3⟩ ⟨2, 46, 46, 3⟩ (by decide) (by decide!) (by decide!) (by decide!)
      (by decide!) (by decide!)⟩

/-- C13. Five bodies of radius 1 at (10, 10) inserted into
`new DynamicQuadtree(0, 0, 100, 100)`: the insertion returns, the root has
children, the five bodies are the resident list of one node, which each of
them reaches through the quadrants 1, 1, 1, 3 (all five take the same
quadrant at every level), and the query of each returns the other four. -/
theorem cascading_split_scenario :
    insertAll 6 root100 fiveAt10 = some fiveTree ∧ fiveTree.nodes.isSome = true ∧
      allObjects fiveTree = fiveAt10 ∧
      (∀ b ∈ fiveAt10, homeObjects fiveTree b = fiveAt10 ∧
        descentPath fiveTree b = [1, 1, 1, 3] ∧ level fiveTree b = some 4 ∧
        query fiveTree b [] = fiveAt10.filter (fun c => c.id != b.id)) :=
  ⟨by decide!, by decide!, by decide!, by decide!⟩

end Ball1

namespace BallSelf

theorem planeTree_getIndex_cases (p : Plane) (obj : Circle) :
    getIndex p obj = -1 ∨ getIndex p obj = 0 ∨ getIndex p obj = 1 ∨
      getIndex p obj = 2 ∨ getIndex p obj = 3 := by
  unfold getIndex
  simp only
  split_ifs <;> simp

theorem planeTree_getIndex_mem_range {p : Plane} {obj : Circle} (h : getIndex p obj ≠ -1) :
    getIndex p obj = 0 ∨ getIndex p obj = 1 ∨ getIndex p obj = 2 ∨
      getIndex p obj = 3 := by
  rcases planeTree_getIndex_cases p obj with h1 | h1
  · exact absurd h1 h
  · exact h1

theorem planeTree_getIndex_sides {p : Plane} {b : Circle} :
    (getIndex p b = 0 →
      b.x + b.radius ≤ p.x + p.width / 2 ∧ b.y + b.radius ≤ p.y + p.height / 2) ∧
    (getIndex p b = 1 →
      b.x - b.radius ≥ p.x + p.width / 2 ∧ b.y + b.radius ≤ p.y + p.height / 2) ∧
    (getIndex p b = 2 →
      b.x - b.radius ≥ p.x + p.width / 2 ∧ b.y - b.radius ≥ p.y + p.height / 2) ∧
    (getIndex p b = 3 →
      b.x + b.radius ≤ p.x + p.width / 2 ∧ b.y - b.radius ≥ p.y + p.height / 2) := by
  unfold getIndex
  simp only [Bool.and_eq_true, decide_eq_true_eq]
  split_ifs <;> simp_all

theorem planeTree_not_collides_of_sep_x {B C : Circle} {m : ℚ} (h1 : B.x + B.radius ≤ m)
    (h2 : C.x - C.radius ≥ m) : collidesWith B C = false ∧ collidesWith C B = false := by
  simp only [collidesWith, decide_eq_false_iff_not, not_and, not_lt]
  constructor <;> intro h0 <;> nlinarith [sq_nonneg (B.y - C.y), sq_nonneg (C.y - B.y)]

theorem planeTree_not_collides_of_sep_y {B C : Circle} {m : ℚ} (h1 : B.y + B.radius ≤ m)
    (h2 : C.y - C.radius ≥ m) : collidesWith B C = false ∧ collidesWith C B = false := by
  simp only [collidesWith, decide_eq_false_iff_not, not_and, not_lt]
  constructor <;> intro h0 <;> nlinarith [sq_nonneg (B.x - C.x), sq_nonneg (C.x - B.x)]

/-- In `弹球self.js` two bodies that one node classifies into different
quadrants do not collide: the strict test of `collidesWith` goes with the
inclusive tests of `getIndex`. -/
theorem planeTree_not_collides_of_quadrants {p : Plane} {B C : Circle}
    (hB : getIndex p B ≠ -1) (hC : getIndex p C ≠ -1)
    (hne : getIndex p B ≠ getIndex p C) : collidesWith B C = false := by
  have sB := @planeTree_getIndex_sides p B
  have sC := @planeTree_getIndex_sides p C
  rcases planeTree_getIndex_mem_range hB with h | h | h | h <;>
    rcases planeTree_getIndex_mem_range hC with h' | h' | h' | h' <;>
    first
    | exact absurd (h.trans h'.symm) hne
    | exact (planeTree_not_collides_of_sep_x
        (by first | exact (sB.1 h).1 | exact (sB.2.2.2 h).1)
        (by first | exact (sC.2.1 h').1 | exact (sC.2.2.1 h').1)).1
    | exact (planeTree_not_collides_of_sep_x
        (by first | exact (sC.1 h').1 | exact (sC.2.2.2 h').1)
        (by first | exact (sB.2.1 h).1 | exact (sB.2.2.1 h).1)).2
    | exact (planeTree_not_collides_of_sep_y
        (by first | exact (sB.1 h).2 | exact (sB.2.1 h).2)
        (by first | exact (sC.2.2.1 h').2 | exact (sC.2.2.2 h').2)).1
    | exact (planeTree_not_collides_of_sep_y
        (by first | exact (sC.1 h').2 | exact (sC.2.1 h').2)
        (by first | exact (sB.2.2.1 h).2 | exact (sB.2.2.2 h).2)).2


theorem move_at_rest (width height : ℚ) (c : Circle) (hx : c.vx = 0) (hy : c.vy = 0) :
    move width height c = c := by
  cases c
  simp only at hx hy
  subst hx hy
  simp [move]

/-- One tick of `updateAll` on a store of two bodies at rest that collide,
both resident at the root: both are removed, whatever their colours. -/
theorem updateAll_pair (width height : ℚ) (plane : Plane) (A B : Circle) (fuel : Nat)
    (hid : A.id ≠ B.id) (hcol : collidesWith A B = true)
    (hA : A.vx = 0 ∧ A.vy = 0) (hB : B.vx = 0 ∧ B.vy = 0) :
    updateAll width height (fuel + 2) [A, B] (.leaf plane 4 [A, B]) =
      some ([], .leaf plane 4 []) := by
  have hid2 : ¬ B.id = A.id := fun h => hid h.symm
  simp [updateAll, move_at_rest, hA, hB, mapObjects, despawnLoop, query, queryScan, setAdd,
    removeFound, indexOf, splice1, hid, hid2, hcol, clear, insertAll]


/-- C14, as amended. For a body store holding two colliding bodies at rest,
both indexed in the tree (inserting them into an empty tree gives the root
with both as residents), one tick of `updateAll` removes both bodies: the
store size decreases by exactly 2, whatever the colours of the two. -/
theorem despawn_pair_any_colour (width height : ℚ) (plane : Plane) (A B : Circle)
    (fuel : Nat) (hid : A.id ≠ B.id) (hcol : collidesWith A B = true)
    (hA : A.vx = 0 ∧ A.vy = 0) (hB : B.vx = 0 ∧ B.vy = 0) :
    insertAll (fuel + 1) (PlaneTree.new plane) [A, B] = some (.leaf plane 4 [A, B]) ∧
    updateAll width height (fuel + 2) [A, B] (.leaf plane 4 [A, B]) =
      some ([], .leaf plane 4 []) ∧
    (updateAll width height (fuel + 2) [A, B] (.leaf plane 4 [A, B])).map
      (fun r => r.1.length + 2) = some [A, B].length := by
  refine ⟨by simp [insertAll, insert, PlaneTree.new], updateAll_pair width height plane A B
    fuel hid hcol hA hB, ?_⟩
  rw [updateAll_pair width height plane A B fuel hid hcol hA hB]
  rfl

/-- C14 amended, at two bodies at (10, 10) and (11, 10) of radius 1 in the
plane 100 x 100: once with the colours 1 and 2, once with the colour 1 for
both. -/
theorem despawn_pair_any_colour_witness :
    (collidesWith ⟨1, 10, 10, 1, 0, 0, 1⟩ ⟨2, 11, 10, 1, 0, 0, 2⟩ = true ∧
      updateAll 100 100 2 [⟨1, 10, 10, 1, 0, 0, 1⟩, ⟨2, 11, 10, 1, 0, 0, 2⟩]
        (.leaf ⟨0, 0, 100, 100⟩ 4 [⟨1, 10, 10, 1, 0, 0, 1⟩, ⟨2, 11, 10, 1, 0, 0, 2⟩]) =
        some ([], .leaf ⟨0, 0, 100, 100⟩ 4 [])) ∧
    (collidesWith ⟨1, 10, 10, 1, 0, 0, 1⟩ ⟨2, 11, 10, 1, 0, 0, 1⟩ = true ∧
      updateAll 100 100 2 [⟨1, 10, 10, 1, 0, 0, 1⟩, ⟨2, 11, 10, 1, 0, 0, 1⟩]
        (.leaf ⟨0, 0, 100, 100⟩ 4 [⟨1, 10, 10, 1, 0, 0, 1⟩, ⟨2, 11, 10, 1, 0, 0, 1⟩]) =
        some ([], .leaf ⟨0, 0, 100, 100⟩ 4 [])) :=
  ⟨⟨by decide!, (despawn_pair_any_colour 100 100 ⟨0, 0, 100, 100⟩ ⟨1, 10, 10, 1, 0, 0, 1⟩
      ⟨2, 11, 10, 1, 0, 0, 2⟩ 0 (by decide) (by decide!) ⟨rfl, rfl⟩ ⟨rfl, rfl⟩).2.1⟩,
   ⟨by decide!, (despawn_pair_any_colour 100 100 ⟨0, 0, 100, 100⟩ ⟨1, 10, 10, 1, 0, 0, 1⟩
      ⟨2, 11, 10, 1, 0, 0, 1⟩ 0 (by decide) (by decide!) ⟨rfl, rfl⟩ ⟨rfl, rfl⟩).2.1⟩⟩

/-- C14, as stated, fails: two colliding bodies at rest with the same colour
are both removed by one tick of `updateAll`; the store size does not stay
2. -/
theorem despawn_same_colour_removed :
    ¬ ∀ (plane : Plane) (A B : Circle), A.id ≠ B.id → collidesWith A B = true →
      A.vx = 0 ∧ A.vy = 0 → B.vx = 0 ∧ B.vy = 0 → A.color = B.color →
      (updateAll plane.width plane.height 2 [A, B] (.leaf plane 4 [A, B])).map
        (fun r => r.1.length) = some 2 := by
  intro h
  have := h ⟨0, 0, 100, 100⟩ ⟨1, 10, 10, 1, 0, 0, 1⟩ ⟨2, 11, 10, 1, 0, 0, 1⟩ (by decide)
    (by decide!) ⟨rfl, rfl⟩ ⟨rfl, rfl⟩ rfl
  revert this
  decide!

/-- C19, the failing input: the store `chainBodies` with the tree built from
it.  The tick removes bodies 1 and 2 when it visits body 1; when it visits
body 4, the query finds body 2 again, `indexOf` gives -1 for it and
`splice(-1, 1)` deletes the last body of the store, body 4; then `indexOf`
gives -1 for body 4 too and `splice(-1, 1)` deletes body 3.  The store ends
empty, although body 3 collides with no body. -/
theorem despawn_removes_bystander :
    insertAll 1 (PlaneTree.new ⟨0, 0, 100, 100⟩) chainBodies = some chainTree ∧
    updateAll 100 100 4 chainBodies chainTree = some ([], .leaf ⟨0, 0, 100, 100⟩ 4 []) ∧
    (∀ b ∈ chainBodies, collidesWith ⟨3, 50, 50, 1, 0, 0, 3⟩ b = false ∨ b.id = 3) ∧
    (∀ b ∈ chainBodies, collidesWith b ⟨3, 50, 50, 1, 0, 0, 3⟩ = false ∨ b.id = 3) ∧
    indexOf [⟨3, 50, 50, 1, 0, 0, 3⟩, ⟨4, 13, 10, 1, 0, 0, 4⟩] ⟨2, 23 / 2, 10, 1, 0, 0, 2⟩ = -1 ∧
    splice1 [⟨3, 50, 50, 1, 0, 0, 3⟩, ⟨4, 13, 10, 1, 0, 0, 4⟩] (-1) =
      [⟨3, 50, 50, 1, 0, 0, 3⟩] ∧
    indexOf [⟨3, 50, 50, 1, 0, 0, 3⟩] ⟨4, 13, 10, 1, 0, 0, 4⟩ = -1 ∧
    splice1 [⟨3, 50, 50, 1, 0, 0, 3⟩] (-1) = [] :=
  ⟨by decide!, by decide!, by decide!, by decide!, by decide!, by decide!, by decide!,
    by decide!⟩


end BallSelf

namespace Ball2

/-- C15, the failing input: the tree of `crossBodies`.  The first four
bodies fill the root, the fifth goes to the upper left subtree;
`getCollisions` pairs only points of one and the same node, so it returns no
pair, although bodies 1 and 5 have different colours and their centres are 2
apart with radii 5 and 5. -/
theorem getCollisions_misses_cross_node_pair :
    insertAll 2 (QuadTree.new ⟨0, 0, 100, 100⟩ 4) crossBodies = some crossTree ∧
    (∀ c ∈ crossBodies, contains ⟨0, 0, 100, 100⟩ c = true) ∧
    getCollisions crossTree = [] ∧
    (⟨1, 10, 10, 5, 1⟩ : Circle).color ≠ (⟨5, 12, 10, 5, 2⟩ : Circle).color ∧
    near ⟨1, 10, 10, 5, 1⟩ ⟨5, 12, 10, 5, 2⟩ = true :=
  ⟨by decide!, by decide!, by decide!, by decide!, by decide!⟩

theorem insert_rejects (fuel : Nat) (t : QuadTree) (c : Circle)
    (h : contains t.boundary c = false) : insert (fuel + 1) t c = some (t, some false) := by
  cases t <;> simp only [QuadTree.boundary] at h <;> simp [insert, h]

theorem wf_new (b : Boundary) (cap : Nat) : WF cap (QuadTree.new b cap) := by
  simp [QuadTree.new, WF]

theorem child_contains (b : Boundary) (cap : Nat) (c : Circle) (hc : contains b c = true)
    (hr : 0 ≤ c.r) :
    contains (subdivide b cap).1.boundary c = true ∨
    contains (subdivide b cap).2.1.boundary c = true ∨
    contains (subdivide b cap).2.2.1.boundary c = true ∨
    contains (subdivide b cap).2.2.2.boundary c = true := by
  simp only [contains, Bool.and_eq_true, decide_eq_true_eq, subdivide, QuadTree.new,
    QuadTree.boundary] at hc ⊢
  obtain ⟨⟨⟨h1, h2⟩, h3⟩, h4⟩ := hc
  by_cases hx : c.x - c.r ≤ b.x + b.w / 2 <;> by_cases hy : c.y - c.r ≤ b.y + b.h / 2
  · exact Or.inl ⟨⟨⟨h1, hx⟩, h3⟩, hy⟩
  · refine Or.inr (Or.inr (Or.inl ⟨⟨⟨h1, hx⟩, ?_⟩, ?_⟩)) <;> linarith
  · refine Or.inr (Or.inl ⟨⟨⟨?_, ?_⟩, h3⟩, hy⟩) <;> linarith
  · refine Or.inr (Or.inr (Or.inr ⟨⟨⟨?_, ?_⟩, ?_⟩, ?_⟩)) <;> linarith

theorem insertInto_spec (cap : Nat) (c : Circle)
    (ins : QuadTree → Option (QuadTree × Option Bool)) (s0 s1 s2 s3 : QuadTree)
    (hq : ∀ s m r, ins s = some (m, r) → WF cap s →
      m.boundary = s.boundary ∧
      (contains s.boundary c = false → r = some false ∧ m = s) ∧
      (contains s.boundary c = true →
        r = some true ∧ (allPoints m).Perm (allPoints s ++ [c]) ∧ WF cap m))
    (hw0 : WF cap s0) (hw1 : WF cap s1) (hw2 : WF cap s2) (hw3 : WF cap s3)
    (hsome : contains s0.boundary c = true ∨ contains s1.boundary c = true ∨
      contains s2.boundary c = true ∨ contains s3.boundary c = true)
    (m0 m1 m2 m3 : QuadTree) (res : Option Bool)
    (h : insertInto ins s0 s1 s2 s3 = some ((m0, m1, m2, m3), res)) :
    res = some true ∧
    (allPoints m0 ++ (allPoints m1 ++ (allPoints m2 ++ allPoints m3))).Perm
      ((allPoints s0 ++ (allPoints s1 ++ (allPoints s2 ++ allPoints s3))) ++ [c]) ∧
    (WF cap m0 ∧ WF cap m1 ∧ WF cap m2 ∧ WF cap m3) ∧
    (m0.boundary = s0.boundary ∧ m1.boundary = s1.boundary ∧
      m2.boundary = s2.boundary ∧ m3.boundary = s3.boundary) := by
  unfold insertInto at h
  cases h0 : ins s0 with
  | none => simp [h0] at h
  | some p0 =>
    obtain ⟨a0, r0⟩ := p0
    obtain ⟨b0, f0, t0⟩ := hq s0 a0 r0 h0 hw0
    simp only [h0] at h
    cases c0 : contains s0.boundary c with
    | true =>
      obtain ⟨hr, hp, hwf⟩ := t0 c0
      subst hr
      simp only [if_true, Option.some.injEq, Prod.mk.injEq] at h
      obtain ⟨⟨rfl, rfl, rfl, rfl⟩, rfl⟩ := h
      refine ⟨rfl, ?_, ⟨hwf, hw1, hw2, hw3⟩, b0, rfl, rfl, rfl⟩
      rw [List.perm_iff_count] at hp ⊢
      intro a
      have := hp a
      simp only [List.count_append] at this ⊢
      omega
    | false =>
      obtain ⟨hr, ha⟩ := f0 c0
      subst hr ha
      simp only [Option.some.injEq, Bool.false_eq_true, if_false] at h
      cases h1 : ins s1 with
      | none => simp [h1] at h
      | some p1 =>
        obtain ⟨a1, r1⟩ := p1
        obtain ⟨b1, f1, t1⟩ := hq s1 a1 r1 h1 hw1
        simp only [h1] at h
        cases c1 : contains s1.boundary c with
        | true =>
          obtain ⟨hr, hp, hwf⟩ := t1 c1
          subst hr
          simp only [if_true, Option.some.injEq, Prod.mk.injEq] at h
          obtain ⟨⟨rfl, rfl, rfl, rfl⟩, rfl⟩ := h
          refine ⟨rfl, ?_, ⟨hw0, hwf, hw2, hw3⟩, rfl, b1, rfl, rfl⟩
          rw [List.perm_iff_count] at hp ⊢
          intro a
          have := hp a
          simp only [List.count_append] at this ⊢
          omega
        | false =>
          obtain ⟨hr, ha⟩ := f1 c1
          subst hr ha
          simp only [Option.some.injEq, Bool.false_eq_true, if_false] at h
          cases h2 : ins s2 with
          | none => simp [h2] at h
          | some p2 =>
            obtain ⟨a2, r2⟩ := p2
            obtain ⟨b2, f2, t2⟩ := hq s2 a2 r2 h2 hw2
            simp only [h2] at h
            cases c2 : contains s2.boundary c with
            | true =>
              obtain ⟨hr, hp, hwf⟩ := t2 c2
              subst hr
              simp only [if_true, Option.some.injEq, Prod.mk.injEq] at h
              obtain ⟨⟨rfl, rfl, rfl, rfl⟩, rfl⟩ := h
              refine ⟨rfl, ?_, ⟨hw0, hw1, hwf, hw3⟩, rfl, rfl, b2, rfl⟩
              rw [List.perm_iff_count] at hp ⊢
              intro a
              have := hp a
              simp only [List.count_append] at this ⊢
              omega
            | false =>
              obtain ⟨hr, ha⟩ := f2 c2
              subst hr ha
              simp only [Option.some.injEq, Bool.false_eq_true, if_false] at h
              cases h3 : ins s3 with
              | none => simp [h3] at h
              | some p3 =>
                obtain ⟨a3, r3⟩ := p3
                obtain ⟨b3, f3, t3⟩ := hq s3 a3 r3 h3 hw3
                simp only [h3] at h
                cases c3 : contains s3.boundary c with
                | true =>
                  obtain ⟨hr, hp, hwf⟩ := t3 c3
                  subst hr
                  simp only [if_true, Option.some.injEq, Prod.mk.injEq] at h
                  obtain ⟨⟨rfl, rfl, rfl, rfl⟩, rfl⟩ := h
                  refine ⟨rfl, ?_, ⟨hw0, hw1, hw2, hwf⟩, rfl, rfl, rfl, b3⟩
                  rw [List.perm_iff_count] at hp ⊢
                  intro a
                  have := hp a
                  simp only [List.count_append] at this ⊢
                  omega
                | false =>
                  exfalso
                  rcases hsome with hs | hs | hs | hs
                  · rw [c0] at hs; exact absurd hs (by simp)
                  · rw [c1] at hs; exact absurd hs (by simp)
                  · rw [c2] at hs; exact absurd hs (by simp)
                  · rw [c3] at hs; exact absurd hs (by simp)

theorem quadTree_insert_spec (cap : Nat) (c : Circle) (hcap : 1 ≤ cap) (hr : 0 ≤ c.r) :
    ∀ (fuel : Nat) (t m : QuadTree) (r : Option Bool), insert fuel t c = some (m, r) →
      WF cap t →
      m.boundary = t.boundary ∧
      (contains t.boundary c = false → r = some false ∧ m = t) ∧
      (contains t.boundary c = true →
        r = some true ∧ (allPoints m).Perm (allPoints t ++ [c]) ∧ WF cap m) := by
  intro fuel
  induction fuel with
  | zero => intro t m r h; simp [insert] at h
  | succ fuel ih =>
    intro t m r h hwf
    cases hc : contains t.boundary c with
    | false =>
      rw [insert_rejects fuel t c hc] at h
      simp only [Option.some.injEq, Prod.mk.injEq] at h
      obtain ⟨rfl, rfl⟩ := h
      exact ⟨rfl, fun _ => ⟨rfl, rfl⟩, fun h => absurd h (by simp)⟩
    | true =>
      cases t with
      | leaf b capacity points =>
        obtain ⟨hcapeq, hlen⟩ := hwf
        subst hcapeq
        simp only [QuadTree.boundary] at hc
        simp only [insert, hc, Bool.true_eq_false, if_false] at h
        split_ifs at h with hlt
        · simp only [Option.some.injEq, Prod.mk.injEq] at h
          obtain ⟨rfl, rfl⟩ := h
          refine ⟨rfl, fun h => absurd h (by simp), fun _ => ⟨rfl, by simp [allPoints], ?_⟩⟩
          exact ⟨rfl, by simp; omega⟩
        · cases hi : insertInto (fun s => insert fuel s c) (subdivide b capacity).1
            (subdivide b capacity).2.1 (subdivide b capacity).2.2.1
            (subdivide b capacity).2.2.2 with
          | none => simp [hi] at h
          | some p =>
            obtain ⟨⟨m0, m1, m2, m3⟩, res⟩ := p
            simp only [hi, Option.some.injEq, Prod.mk.injEq] at h
            obtain ⟨rfl, rfl⟩ := h
            obtain ⟨hres, hp, ⟨w0, w1, w2, w3⟩, ⟨e0, e1, e2, e3⟩⟩ :=
              insertInto_spec capacity c (fun s => insert fuel s c) _ _ _ _
                (fun s m r hs hw => ih s m r hs hw)
                (wf_new _ _) (wf_new _ _) (wf_new _ _) (wf_new _ _)
                (child_contains b capacity c hc hr) m0 m1 m2 m3 res hi
            refine ⟨rfl, fun h => absurd h (by simp), fun _ => ⟨hres, ?_, ?_⟩⟩
            · simp only [allPoints]
              rw [List.perm_iff_count] at hp ⊢
              intro a
              have := hp a
              simp only [List.count_append, subdivide, QuadTree.new, allPoints,
                List.count_nil] at this ⊢
              omega
            · exact ⟨rfl, hlen, e0, e1, e2, e3, w0, w1, w2, w3⟩
      | node b capacity points s0 s1 s2 s3 =>
        obtain ⟨hcapeq, hlen, e0, e1, e2, e3, w0, w1, w2, w3⟩ := hwf
        subst hcapeq
        simp only [QuadTree.boundary] at hc
        simp only [insert, hc, Bool.true_eq_false, if_false] at h
        split_ifs at h with hlt
        · simp only [Option.some.injEq, Prod.mk.injEq] at h
          obtain ⟨rfl, rfl⟩ := h
          refine ⟨rfl, fun h => absurd h (by simp), fun _ => ⟨rfl, ?_, ?_⟩⟩
          · rw [List.perm_iff_count]
            intro a
            simp only [allPoints, List.count_append]
            omega
          · exact ⟨rfl, by simp; omega, e0, e1, e2, e3, w0, w1, w2, w3⟩
        · cases hi : insertInto (fun s => insert fuel s c) s0 s1 s2 s3 with
          | none => simp [hi] at h
          | some p =>
            obtain ⟨⟨m0, m1, m2, m3⟩, res⟩ := p
            simp only [hi, Option.some.injEq, Prod.mk.injEq] at h
            obtain ⟨rfl, rfl⟩ := h
            have hsome := child_contains b capacity c hc hr
            rw [← e0, ← e1, ← e2, ← e3] at hsome
            obtain ⟨hres, hp, ⟨v0, v1, v2, v3⟩, ⟨g0, g1, g2, g3⟩⟩ :=
              insertInto_spec capacity c (fun s => insert fuel s c) _ _ _ _
                (fun s m r hs hw => ih s m r hs hw) w0 w1 w2 w3 hsome m0 m1 m2 m3 res hi
            refine ⟨rfl, fun h => absurd h (by simp), fun _ => ⟨hres, ?_, ?_⟩⟩
            · simp only [allPoints]
              rw [List.perm_iff_count] at hp ⊢
              intro a
              have := hp a
              simp only [List.count_append] at this ⊢
              omega
            · exact ⟨rfl, hlen, g0.trans e0, g1.trans e1, g2.trans e2, g3.trans e3,
                v0, v1, v2, v3⟩


theorem insertInto_total (ins : QuadTree → Option (QuadTree × Option Bool))
    (s0 s1 s2 s3 : QuadTree) (h0 : ∃ r, ins s0 = some r) (h1 : ∃ r, ins s1 = some r)
    (h2 : ∃ r, ins s2 = some r) (h3 : ∃ r, ins s3 = some r) :
    ∃ r, insertInto ins s0 s1 s2 s3 = some r := by
  obtain ⟨⟨a0, r0⟩, h0⟩ := h0
  obtain ⟨⟨a1, r1⟩, h1⟩ := h1
  obtain ⟨⟨a2, r2⟩, h2⟩ := h2
  obtain ⟨⟨a3, r3⟩, h3⟩ := h3
  simp only [insertInto, h0, h1, h2, h3]
  split_ifs <;> exact ⟨_, rfl⟩

theorem insert_new_total (fuel : Nat) (b : Boundary) (cap : Nat) (c : Circle)
    (hcap : 1 ≤ cap) : ∃ r, insert (fuel + 1) (QuadTree.new b cap) c = some r := by
  simp only [QuadTree.new, insert]
  split_ifs with h1 h2
  · exact ⟨_, rfl⟩
  · exact ⟨_, rfl⟩
  · exfalso
    simp at h2
    omega

theorem quadTree_insert_total (cap : Nat) (c : Circle) (hcap : 1 ≤ cap) :
    ∀ (t : QuadTree), WF cap t → ∀ fuel, height t + 2 ≤ fuel →
      ∃ r, insert fuel t c = some r := by
  intro t
  induction t with
  | leaf b capacity points =>
    intro hwf fuel hf
    obtain ⟨hcapeq, _⟩ := hwf
    subst hcapeq
    obtain ⟨g, rfl⟩ : ∃ g, fuel = g + 2 := ⟨fuel - 2, by omega⟩
    simp only [insert]
    split_ifs
    · exact ⟨_, rfl⟩
    · exact ⟨_, rfl⟩
    · obtain ⟨r, hr⟩ := insertInto_total (fun s => insert (g + 1) s c)
        (subdivide b capacity).1 (subdivide b capacity).2.1 (subdivide b capacity).2.2.1
        (subdivide b capacity).2.2.2
        (insert_new_total g _ _ c hcap) (insert_new_total g _ _ c hcap)
        (insert_new_total g _ _ c hcap) (insert_new_total g _ _ c hcap)
      obtain ⟨⟨m0, m1, m2, m3⟩, res⟩ := r
      simp only [hr]
      exact ⟨_, rfl⟩
  | node b capacity points s0 s1 s2 s3 ih0 ih1 ih2 ih3 =>
    intro hwf fuel hf
    obtain ⟨_, _, _, _, _, _, w0, w1, w2, w3⟩ := hwf
    simp only [height] at hf
    obtain ⟨g, rfl⟩ : ∃ g, fuel = g + 1 := ⟨fuel - 1, by omega⟩
    simp only [insert]
    split_ifs
    · exact ⟨_, rfl⟩
    · exact ⟨_, rfl⟩
    · obtain ⟨r, hr⟩ := insertInto_total (fun s => insert g s c) s0 s1 s2 s3
        (ih0 w0 g (by omega)) (ih1 w1 g (by omega)) (ih2 w2 g (by omega))
        (ih3 w3 g (by omega))
      obtain ⟨⟨m0, m1, m2, m3⟩, res⟩ := r
      simp only [hr]
      exact ⟨_, rfl⟩

theorem insert_capacity_zero (fuel : Nat) : ∀ (w h : ℚ), 0 ≤ w → 0 ≤ h →
    insert fuel (.leaf ⟨0, 0, w, h⟩ 0 []) ⟨1, 1, 1, 1, 0⟩ = none := by
  induction fuel with
  | zero => intro w h _ _; rfl
  | succ fuel ih =>
    intro w h hw hh
    have hc : contains ⟨0, 0, w, h⟩ ⟨1, 1, 1, 1, 0⟩ = true := by
      simp [contains, hw, hh]
    have := ih (w / 2) (h / 2) (by linarith) (by linarith)
    simp only [insert, hc, Bool.true_eq_false, if_false, List.length_nil, lt_self_iff_false,
      subdivide, QuadTree.new, insertInto, this]

/-- C20, as stated, fails: a tree constructed with capacity 0 never accepts
a point at a node, so `insert` of a body that the root contains subdivides
without end; no amount of fuel gives a result. -/
theorem insert_capacity_zero_diverges :
    ¬ ∀ (t : QuadTree) (c : Circle), 0 ≤ c.r → ∃ fuel r, insert fuel t c = some r := by
  intro h
  obtain ⟨fuel, r, hr⟩ := h (QuadTree.new ⟨0, 0, 100, 100⟩ 0) ⟨1, 1, 1, 1, 0⟩ (by norm_num)
  rw [QuadTree.new, insert_capacity_zero fuel 100 100 (by norm_num) (by norm_num)] at hr
  exact absurd hr (by simp)

/-- C20, as amended. For every tree as `insert` builds it with a capacity
of at least 1, and every body with radius at least 0: `insert` returns,
given enough fuel; if the root's `contains` is false it returns false and
the tree is unchanged; if `contains` is true it returns true, never
`undefined`, the points of the new tree are those of the old one and the
body, once, and every node still has at most `capacity` points. -/
theorem quadTree_insert_result (cap : Nat) (t : QuadTree) (c : Circle) (hcap : 1 ≤ cap)
    (hwf : WF cap t) (hr : 0 ≤ c.r) :
    (∃ fuel r, insert fuel t c = some r) ∧
    (∀ fuel m res, insert fuel t c = some (m, res) →
      (contains t.boundary c = false → res = some false ∧ m = t) ∧
      (contains t.boundary c = true →
        res = some true ∧ (allPoints m).Perm (allPoints t ++ [c]) ∧ WF cap m)) := by
  refine ⟨?_, ?_⟩
  · obtain ⟨r, hr⟩ := quadTree_insert_total cap c hcap t hwf (height t + 2) (le_refl _)
    exact ⟨_, r, hr⟩
  · intro fuel m res h
    exact (quadTree_insert_spec cap c hcap hr fuel t m res h hwf).2

/-- C20 amended, at the full root of `crossBodies` without its fifth body
and the body at (12, 10): `insert` returns true and puts the body into the
upper left subtree. -/
theorem quadTree_insert_result_witness :
    (1 ≤ 4) ∧
    WF 4 (.leaf ⟨0, 0, 100, 100⟩ 4
      [⟨1, 10, 10, 5, 1⟩, ⟨2, 80, 80, 5, 1⟩, ⟨3, 80, 20, 5, 1⟩, ⟨4, 20, 80, 5, 1⟩]) ∧
    (0 : ℚ) ≤ 5 ∧
    insert 2 (.leaf ⟨0, 0, 100, 100⟩ 4
      [⟨1, 10, 10, 5, 1⟩, ⟨2, 80, 80, 5, 1⟩, ⟨3, 80, 20, 5, 1⟩, ⟨4, 20, 80, 5, 1⟩])
      ⟨5, 12, 10, 5, 2⟩ = some (crossTree, some true) ∧
    (allPoints crossTree).Perm
      (allPoints (.leaf ⟨0, 0, 100, 100⟩ 4
        [⟨1, 10, 10, 5, 1⟩, ⟨2, 80, 80, 5, 1⟩, ⟨3, 80, 20, 5, 1⟩, ⟨4, 20, 80, 5, 1⟩]) ++
        [⟨5, 12, 10, 5, 2⟩]) ∧
    WF 4 crossTree :=
  have hw : WF 4 (.leaf ⟨0, 0, 100, 100⟩ 4
      [⟨1, 10, 10, 5, 1⟩, ⟨2, 80, 80, 5, 1⟩, ⟨3, 80, 20, 5, 1⟩, ⟨4, 20, 80, 5, 1⟩]) :=
    ⟨rfl, by decide⟩
  have h := ((quadTree_insert_result 4 _ ⟨5, 12, 10, 5, 2⟩ (by decide) hw
    (by norm_num)).2 2 crossTree (some true) (by decide!)).2 (by decide!)
  ⟨by decide, hw, by norm_num, by decide!, h.2.1, h.2.2⟩


end Ball2
